import Mathlib

/-!
# Snake simulation core of `src/main.cc`

A shallow embedding of the simulation layer of the program: `Vec2`, `Food`,
`Snake` (movement, growth, collision queries), the updates of `StartLevel` and
`RunningLevel`, and the loop of `Game::run`.

Modelling conventions.

* `float` coordinates are rationals (`ℚ`), added and subtracted exactly; the
  section on binary32 arithmetic repeats the snake operations with every
  `float` result rounded, for the property that depends on the rounding.
* `uint16_t` sizes are natural numbers. The expression
  `WINDOW_WIDTH - size - 2` is evaluated by the program in 32-bit unsigned
  arithmetic, which `subU32` reproduces with an explicit `% 2^32`.
* The keyboard is an `Input` value answering the two raylib queries
  `IsKeyDown` (level-triggered) and `IsKeyPressed` (edge-triggered).
* The two random draws of `Food::reset` are explicit arguments; `WIDTH_DIS`
  and `HEIGHT_DIS` describe the values the two distributions can return.
* One iteration of the loop of `Game::run` consumes one `Frame`; looking up a
  game state without entry in `level_cache` returns `none`.
* `std::vector::pop_back` and `std::vector::back` on an empty vector have no
  defined behaviour; the functions reaching them return `none` there.
-/

namespace SnakeAI

/-! ## Constants -/

/-- The constant `WINDOW_WIDTH` (a `uint32_t`). -/
def WINDOW_WIDTH : Nat := 1600

/-- The constant `WINDOW_HEIGHT` (a `uint32_t`). -/
def WINDOW_HEIGHT : Nat := 1200

/-- The constant `SNAKE_SIZE` (a `uint16_t`). -/
def SNAKE_SIZE : Nat := 20

/-- The constant `SNAKE_VELOCITY`, initialised from `SNAKE_SIZE`. -/
def SNAKE_VELOCITY : ℚ := (SNAKE_SIZE : ℚ)

/-- Subtraction of 32-bit unsigned integers, wrapping around modulo `2^32`. -/
def subU32 (a b : Nat) : Nat :=
  (a % 4294967296 + 4294967296 - b % 4294967296) % 4294967296

/-! ## Enumerations -/

/-- The enumeration `Direction`. -/
inductive Direction where
  | UP
  | DOWN
  | LEFT
  | RIGHT
  | NO_DIRECTION
deriving DecidableEq, Repr

/-- The enumeration `GameState`. -/
inductive GameState where
  | START
  | RUNNING
  | END
  | PAUSE
deriving DecidableEq, Repr

/-! ## Keyboard -/

/-- The raylib keys the program queries. -/
inductive KeyboardKey where
  | KEY_W
  | KEY_S
  | KEY_A
  | KEY_D
  | KEY_SPACE
deriving DecidableEq, Repr

/-- The keyboard as seen during one frame: `IsKeyDown k` tells whether `k` is
held, `IsKeyPressed k` whether `k` went down in this frame. -/
structure Input where
  IsKeyDown : KeyboardKey → Bool
  IsKeyPressed : KeyboardKey → Bool

/-! ## Vec2 -/

/-- The template `Vec2<T>`. -/
structure Vec2 (T : Type) where
  x : T
  y : T
deriving DecidableEq, Repr

namespace Vec2

variable {T : Type}

/-- The operator `Vec2::operator+`. -/
def add [Add T] (a other : Vec2 T) : Vec2 T :=
  { x := a.x + other.x, y := a.y + other.y }

/-- The operator `Vec2::operator-`. -/
def sub [Sub T] (a other : Vec2 T) : Vec2 T :=
  { x := a.x - other.x, y := a.y - other.y }

/-- The operator `Vec2::operator*` (scaling by `f`). -/
def mul [Mul T] (a : Vec2 T) (f : T) : Vec2 T :=
  { x := a.x * f, y := a.y * f }

/-- The method `Vec2::dot`. -/
def dot [Add T] [Mul T] (a other : Vec2 T) : T :=
  a.x * other.x + a.y * other.y

end Vec2

/-! ## Food -/

/-- The struct `Food`: a position and a size (20 unless set otherwise). -/
structure Food where
  pos : Vec2 ℚ
  size : Nat := 20
deriving DecidableEq, Repr

/-- The method `Food::reset`; `wx` and `wy` are the values returned by
`WIDTH_DIS(gen)` and `HEIGHT_DIS(gen)`. -/
def Food.reset (food : Food) (wx wy : ℚ) : Food :=
  { food with pos := { x := wx, y := wy } }

/-! ## Snake -/

/-- The struct `Snake`. -/
structure Snake where
  head : Vec2 ℚ
  body : List (Vec2 ℚ)
  size : Nat
  vel : ℚ
  dir : Direction
deriving DecidableEq, Repr

namespace Snake

/-- The constructor `Snake(head_, size_)`: the body holds the head alone,
`vel` and `dir` take their default member initialisers. -/
def new (head_ : Vec2 ℚ) (size_ : Nat) : Snake :=
  { head := head_, body := [head_], size := size_,
    vel := SNAKE_VELOCITY, dir := Direction.NO_DIRECTION }

/-- The method `Snake::_set_direction`: four independent tests, in the order
W, S, A, D, each overwriting `dir`. -/
def _set_direction (s : Snake) (inp : Input) : Snake :=
  let s := if inp.IsKeyDown KeyboardKey.KEY_W then { s with dir := Direction.UP } else s
  let s := if inp.IsKeyDown KeyboardKey.KEY_S then { s with dir := Direction.DOWN } else s
  let s := if inp.IsKeyDown KeyboardKey.KEY_A then { s with dir := Direction.LEFT } else s
  let s := if inp.IsKeyDown KeyboardKey.KEY_D then { s with dir := Direction.RIGHT } else s
  s

/-- The method `Snake::_is_boundary_collision`. -/
def _is_boundary_collision (s : Snake) : Bool :=
  (decide (s.head.x ≤ 2)
      || decide (s.head.x ≥ ((subU32 (subU32 WINDOW_WIDTH s.size) 2 : Nat) : ℚ)))
    || (decide (s.head.y ≤ 2)
      || decide (s.head.y ≥ ((subU32 (subU32 WINDOW_HEIGHT s.size) 2 : Nat) : ℚ)))

/-- The method `Snake::_is_food_collision`. -/
def _is_food_collision (s : Snake) (food : Food) : Bool :=
  let x_condition : Bool :=
    decide (s.head.x < food.pos.x + (food.size : ℚ))
      && decide (food.pos.x < s.head.x + (s.size : ℚ))
  let y_condition : Bool :=
    decide (s.head.y < food.pos.y + (food.size : ℚ))
      && decide (food.pos.y < s.head.y + (s.size : ℚ))
  x_condition && y_condition

/-- The two statements closing `Snake::move`: `body.pop_back()` followed by
`body.insert(body.begin(), head)`. `none` when the body is empty. -/
def shift_body (s : Snake) : Option Snake :=
  match s.body with
  | [] => none
  | b :: bs => some { s with body := s.head :: (b :: bs).dropLast }

/-- The method `Snake::move`. -/
def move (s : Snake) (inp : Input) : Option Snake :=
  if s._is_boundary_collision then some s
  else
    let s := s._set_direction inp
    match s.dir with
    | Direction.UP =>
        shift_body { s with head := { x := s.head.x, y := s.head.y - s.vel } }
    | Direction.DOWN =>
        shift_body { s with head := { x := s.head.x, y := s.head.y + s.vel } }
    | Direction.LEFT =>
        shift_body { s with head := { x := s.head.x - s.vel, y := s.head.y } }
    | Direction.RIGHT =>
        shift_body { s with head := { x := s.head.x + s.vel, y := s.head.y } }
    | Direction.NO_DIRECTION => some s

/-- The method `Snake::_add_segment`. `none` when the body is empty, where
`body.back()` is evaluated before the switch. -/
def _add_segment (s : Snake) : Option Snake :=
  match s.body.getLast? with
  | none => none
  | some new_segment =>
    match s.dir with
    | Direction.UP =>
        some { s with body := s.body ++ [{ x := new_segment.x, y := new_segment.y + (s.size : ℚ) }] }
    | Direction.DOWN =>
        some { s with body := s.body ++ [{ x := new_segment.x, y := new_segment.y - (s.size : ℚ) }] }
    | Direction.LEFT =>
        some { s with body := s.body ++ [{ x := new_segment.x - (s.size : ℚ), y := new_segment.y }] }
    | Direction.RIGHT =>
        some { s with body := s.body ++ [{ x := new_segment.x + (s.size : ℚ), y := new_segment.y }] }
    | Direction.NO_DIRECTION => some s

/-- The method `Snake::eat`, returning the snake and the food after the call;
`wx` and `wy` are the draws consumed by `food.reset()` when it runs. -/
def eat (s : Snake) (food : Food) (wx wy : ℚ) : Option (Snake × Food) :=
  if !s._is_food_collision food then some (s, food)
  else
    let food := food.reset wx wy
    match s._add_segment with
    | none => none
    | some s => some (s, food)

/-- The method `Snake::get_length`. -/
def get_length (s : Snake) : Nat :=
  s.body.length

end Snake

/-! ## Levels -/

/-- The method `StartLevel::update`, returning the game state after the call. -/
def StartLevel.update (inp : Input) (state : GameState) : GameState :=
  if inp.IsKeyPressed KeyboardKey.KEY_SPACE then GameState.RUNNING else state

/-- The struct `RunningLevel`: the snake and the food it owns. -/
structure RunningLevel where
  snake : Snake
  food : Food
deriving DecidableEq, Repr

/-- What the outside world supplies during one frame: the keyboard state and
the two values `WIDTH_DIS(gen)`, `HEIGHT_DIS(gen)` would return if drawn. -/
structure Frame where
  inp : Input
  wx : ℚ
  wy : ℚ

namespace RunningLevel

/-- The default member initialisers of `RunningLevel`: the snake built by
`Snake(Vec2(100,100), SNAKE_SIZE)` and the food built by `Food(Vec2(300,300))`. -/
def new : RunningLevel :=
  { snake := Snake.new { x := 100, y := 100 } SNAKE_SIZE,
    food := { pos := { x := 300, y := 300 } } }

/-- The two calls in the body of `RunningLevel::update`: `snake.move()` and
then `snake.eat(food)`. -/
def tick (l : RunningLevel) (f : Frame) : Option RunningLevel :=
  match l.snake.move f.inp with
  | none => none
  | some s =>
    match s.eat l.food f.wx f.wy with
    | none => none
    | some (s', food') => some { snake := s', food := food' }

/-- The method `RunningLevel::update`: the level after the call together with
the game state, which is passed in and cast to `void`. -/
def update (l : RunningLevel) (f : Frame) (state : GameState) :
    Option (RunningLevel × GameState) :=
  match l.tick f with
  | none => none
  | some l' => some (l', state)

/-- Successive update ticks of the level, one per frame of the list. -/
def ticks (l : RunningLevel) : List Frame → Option RunningLevel
  | [] => some l
  | f :: rest =>
    match l.tick f with
    | none => none
    | some l' => ticks l' rest

end RunningLevel

/-! ## Game -/

/-- The objects the level mapping points to: the `StartLevel` (which has no
members) and the `RunningLevel`. -/
inductive Level where
  | start
  | running (l : RunningLevel)

/-- The struct `Game`: the current state and the mapping `level_cache` from
game states to levels (`none` where the mapping has no entry). -/
structure Game where
  state : GameState
  level_cache : GameState → Option Level

namespace Game

/-- The default member initialisers of `Game`: state `START` and a mapping with
the two entries `START` and `RUNNING`. -/
def new : Game :=
  { state := GameState.START,
    level_cache := fun k =>
      match k with
      | GameState.START => some Level.start
      | GameState.RUNNING => some (Level.running RunningLevel.new)
      | _ => none }

/-- One iteration of the loop of `Game::run`: `level_cache[state]->update(&state)`
followed by `level_cache[state]->render()`. Looking up a state without entry
yields a null pointer, whose dereference has no defined behaviour: `none`.
Rendering reads the level and changes nothing. -/
def frame (g : Game) (f : Frame) : Option Game :=
  match g.level_cache g.state with
  | none => none
  | some Level.start =>
    let g' : Game := { g with state := StartLevel.update f.inp g.state }
    match g'.level_cache g'.state with
    | none => none
    | some _ => some g'
  | some (Level.running l) =>
    match l.update f g.state with
    | none => none
    | some (l', state') =>
      let g' : Game :=
        { state := state',
          level_cache := fun k =>
            if k = g.state then some (Level.running l') else g.level_cache k }
      match g'.level_cache g'.state with
      | none => none
      | some _ => some g'

/-- The loop of `Game::run` over the frames shown before the window closes. -/
def run (g : Game) : List Frame → Option Game
  | [] => some g
  | f :: rest =>
    match g.frame f with
    | none => none
    | some g' => run g' rest

end Game

/-! ## Random draws -/

/-- The values `WIDTH_DIS(gen)` can return: the distribution is
`std::uniform_real_distribution<float>(20, WINDOW_WIDTH - 20)`, which produces
values in the half-open interval from its first to its second parameter. -/
def WIDTH_DIS (wx : ℚ) : Prop :=
  (20 : ℚ) ≤ wx ∧ wx < ((subU32 WINDOW_WIDTH 20 : Nat) : ℚ)

/-- The values `HEIGHT_DIS(gen)` can return: the distribution is
`std::uniform_real_distribution<float>(20, WINDOW_HEIGHT - 20)`. -/
def HEIGHT_DIS (wy : ℚ) : Prop :=
  (20 : ℚ) ≤ wy ∧ wy < ((subU32 WINDOW_HEIGHT 20 : Nat) : ℚ)

instance (wx : ℚ) : Decidable (WIDTH_DIS wx) := by
  unfold WIDTH_DIS
  infer_instance

instance (wy : ℚ) : Decidable (HEIGHT_DIS wy) := by
  unfold HEIGHT_DIS
  infer_instance

/-! ## Auxiliary definitions for the statements -/

/-- The keyboard with exactly the listed keys held and none freshly pressed. -/
def heldKeys (ks : List KeyboardKey) : Input :=
  { IsKeyDown := fun k => decide (k ∈ ks), IsKeyPressed := fun _ => false }

/-- The head of `s` moved by one `vel` step along `d`, as `Snake::move`
computes it in its switch. -/
def stepHead (s : Snake) (d : Direction) : Vec2 ℚ :=
  match d with
  | Direction.UP => { x := s.head.x, y := s.head.y - s.vel }
  | Direction.DOWN => { x := s.head.x, y := s.head.y + s.vel }
  | Direction.LEFT => { x := s.head.x - s.vel, y := s.head.y }
  | Direction.RIGHT => { x := s.head.x + s.vel, y := s.head.y }
  | Direction.NO_DIRECTION => s.head

/-- The snake of the movement scenario: head and single segment at
`(100,100)`, size 20, velocity 20, moving right. -/
def snakeRight100 : Snake :=
  { head := { x := 100, y := 100 }, body := [{ x := 100, y := 100 }], size := 20,
    vel := 20, dir := Direction.RIGHT }

/-- The snake of the feeding scenario: head and single segment at
`(120,100)`, size 20, velocity 20, moving right. -/
def snakeRight120 : Snake :=
  { head := { x := 120, y := 100 }, body := [{ x := 120, y := 100 }], size := 20,
    vel := 20, dir := Direction.RIGHT }

/-- The food of the feeding scenario, at `(115,100)` with size 20. -/
def food115 : Food :=
  { pos := { x := 115, y := 100 }, size := 20 }

/-- A food lying exactly on the initial head position `(100,100)`. -/
def food100 : Food :=
  { pos := { x := 100, y := 100 }, size := 20 }

/-- The position `Snake::_add_segment` gives to the segment it appends, as
computed in its switch from the last body element `tail`. -/
def newSegment (s : Snake) (tail : Vec2 ℚ) : Vec2 ℚ :=
  match s.dir with
  | Direction.UP => { x := tail.x, y := tail.y + (s.size : ℚ) }
  | Direction.DOWN => { x := tail.x, y := tail.y - (s.size : ℚ) }
  | Direction.LEFT => { x := tail.x - (s.size : ℚ), y := tail.y }
  | Direction.RIGHT => { x := tail.x + (s.size : ℚ), y := tail.y }
  | Direction.NO_DIRECTION => tail

/-- Successive `move()` calls, one per keyboard state of the list. -/
def moves (s : Snake) : List Input → Option Snake
  | [] => some s
  | inp :: rest =>
    match s.move inp with
    | none => none
    | some s' => moves s' rest

/-- One call on a snake: `move()` under a keyboard state, or `eat(food)` with
the draws its reset would consume. -/
inductive Call where
  | move (inp : Input)
  | eat (food : Food) (wx wy : ℚ)

/-- The snake after one call. -/
def Snake.call (s : Snake) : Call → Option Snake
  | Call.move inp => s.move inp
  | Call.eat food wx wy => (s.eat food wx wy).map Prod.fst

/-- The snake after a sequence of calls, in order. -/
def Snake.calls (s : Snake) : List Call → Option Snake
  | [] => some s
  | c :: rest =>
    match s.call c with
    | none => none
    | some s' => s'.calls rest

/-- A two-segment snake whose head sits on the left margin (`x = 2`), heading
left. -/
def snakeAtLeftEdge : Snake :=
  { head := { x := 2, y := 100 }, body := [{ x := 2, y := 100 }, { x := 22, y := 100 }],
    size := 20, vel := 20, dir := Direction.LEFT }

/-- A three-segment snake away from the boundary, heading up. -/
def snakeUp3 : Snake :=
  { head := { x := 200, y := 200 },
    body := [{ x := 200, y := 200 }, { x := 200, y := 220 }, { x := 220, y := 220 }],
    size := 20, vel := 20, dir := Direction.UP }

/-- The reference overlap test in the words of the specification: the open
square with corner `a` and side `asz` and the open square with corner `b` and
side `bsz` have a common point. -/
def openSquaresMeet (a : Vec2 ℚ) (asz : ℚ) (b : Vec2 ℚ) (bsz : ℚ) : Prop :=
  ∃ p : Vec2 ℚ,
    (a.x < p.x ∧ p.x < a.x + asz) ∧ (a.y < p.y ∧ p.y < a.y + asz) ∧
    (b.x < p.x ∧ p.x < b.x + bsz) ∧ (b.y < p.y ∧ p.y < b.y + bsz)

/-- Direction resolution in the words of the specification: among the keys
W, S, A, D taken in this fixed order with their directions, the last one that
is held decides; when none is held the previous direction stays. -/
def lastHeldDirection (inp : Input) (prev : Direction) : Direction :=
  match ([(KeyboardKey.KEY_W, Direction.UP), (KeyboardKey.KEY_S, Direction.DOWN),
          (KeyboardKey.KEY_A, Direction.LEFT), (KeyboardKey.KEY_D, Direction.RIGHT)].filter
            (fun p => inp.IsKeyDown p.1)).getLast? with
  | some p => p.2
  | none => prev

/-- A frame in which the space key is held from earlier frames but was not
pressed in this one. -/
def spaceHeldNotPressed : Input :=
  { IsKeyDown := fun k => decide (k = KeyboardKey.KEY_SPACE), IsKeyPressed := fun _ => false }

/-- A frame with exactly the listed keys held, none freshly pressed, and the
draws `(320, 300)`. -/
def heldFrame (ks : List KeyboardKey) : Frame :=
  { inp := heldKeys ks, wx := 320, wy := 300 }

/-- A frame in which space is freshly pressed and no other key is touched. -/
def spacePressedFrame : Frame :=
  { inp := { IsKeyDown := fun k => decide (k = KeyboardKey.KEY_SPACE),
             IsKeyPressed := fun k => decide (k = KeyboardKey.KEY_SPACE) },
    wx := 320, wy := 300 }

/-- The property kept by every frame of `Game::run`: the state is `START` or
`RUNNING`, the mapping has exactly the entries `START` (a start level) and
`RUNNING` (a running level), and the snake of the running level has
`body[0] == head`. -/
def Game.wellFormed (g : Game) : Prop :=
  (g.state = GameState.START ∨ g.state = GameState.RUNNING) ∧
  g.level_cache GameState.START = some Level.start ∧
  (∃ l : RunningLevel, g.level_cache GameState.RUNNING = some (Level.running l) ∧
    l.snake.body.head? = some l.snake.head) ∧
  g.level_cache GameState.END = none ∧
  g.level_cache GameState.PAUSE = none

/-- The grid property of a snake of the running level: size and velocity are
20 and the head lies on a multiple of 20 in both coordinates, between column 0
and column 79 and between row 0 and row 59. -/
def Snake.onGrid (s : Snake) : Prop :=
  s.size = 20 ∧ s.vel = 20 ∧
  ∃ m n : ℤ, s.head.x = 20 * (m : ℚ) ∧ s.head.y = 20 * (n : ℚ) ∧
    (0 ≤ m ∧ m ≤ 79) ∧ (0 ≤ n ∧ n ≤ 59)

/-- Two positions differ by exactly `d` along one axis and by 0 along the
other. -/
def adjacent (d : ℚ) (a b : Vec2 ℚ) : Prop :=
  (|a.x - b.x| = d ∧ a.y - b.y = 0) ∨ (a.x - b.x = 0 ∧ |a.y - b.y| = d)

instance (d : ℚ) (a b : Vec2 ℚ) : Decidable (adjacent d a b) := by
  unfold adjacent
  infer_instance

/-- Every two consecutive positions of the list are adjacent at distance `d`. -/
def contiguous (d : ℚ) : List (Vec2 ℚ) → Prop
  | a :: b :: rest => adjacent d a b ∧ contiguous d (b :: rest)
  | _ => True

/-- The frames of a run that eats twice while moving right: S held for ten
frames (down to row 300), then D held for eleven frames (right to column 300,
where the food lies, and one step further), every draw being `(320, 300)`. -/
def eatTwiceFrames : List Frame :=
  List.replicate 10 (heldFrame [KeyboardKey.KEY_S])
    ++ List.replicate 11 (heldFrame [KeyboardKey.KEY_D])

/-! ## Binary32 arithmetic

The definitions above add and subtract coordinates exactly. The ones below
repeat the snake operations with every `float` result rounded to binary32, to
settle the one property that depends on the rounding: the exact distance
between consecutive segments. -/

/-- The integer nearest to `r`, the even one of the two when `r` lies half-way. -/
def roundHalfEven (r : ℚ) : ℤ :=
  if r - (⌊r⌋ : ℚ) < 1 / 2 then ⌊r⌋
  else if 1 / 2 < r - (⌊r⌋ : ℚ) then ⌊r⌋ + 1
  else if ⌊r⌋ % 2 = 0 then ⌊r⌋
  else ⌊r⌋ + 1

/-- The `float` holding the exact result `q`: IEEE 754 binary32 with a 24-bit
significand and exponents from -126 up, rounded to nearest, ties to even.
Overflow to infinity (beyond `2^128`) is not modelled. -/
def roundFloat (q : ℚ) : ℚ :=
  if q = 0 then 0
  else
    (roundHalfEven (q / (2 : ℚ) ^ (max (Int.log 2 |q|) (-126) - 23)) : ℚ)
      * (2 : ℚ) ^ (max (Int.log 2 |q|) (-126) - 23)

namespace Snake

/-- The method `Snake::_is_boundary_collision`, the 32-bit unsigned bounds
being converted to `float` for the comparison. -/
def _is_boundary_collision_float (s : Snake) : Bool :=
  (decide (s.head.x ≤ 2)
      || decide (s.head.x ≥ roundFloat ((subU32 (subU32 WINDOW_WIDTH s.size) 2 : Nat) : ℚ)))
    || (decide (s.head.y ≤ 2)
      || decide (s.head.y ≥ roundFloat ((subU32 (subU32 WINDOW_HEIGHT s.size) 2 : Nat) : ℚ)))

/-- The method `Snake::_is_food_collision` with the four `float` sums rounded. -/
def _is_food_collision_float (s : Snake) (food : Food) : Bool :=
  let x_condition : Bool :=
    decide (s.head.x < roundFloat (food.pos.x + (food.size : ℚ)))
      && decide (food.pos.x < roundFloat (s.head.x + (s.size : ℚ)))
  let y_condition : Bool :=
    decide (s.head.y < roundFloat (food.pos.y + (food.size : ℚ)))
      && decide (food.pos.y < roundFloat (s.head.y + (s.size : ℚ)))
  x_condition && y_condition

/-- The method `Snake::move` with the `float` result of `head.y -= vel` (and of
its three siblings) rounded. -/
def move_float (s : Snake) (inp : Input) : Option Snake :=
  if s._is_boundary_collision_float then some s
  else
    let s := s._set_direction inp
    match s.dir with
    | Direction.UP =>
        shift_body { s with head := { x := s.head.x, y := roundFloat (s.head.y - s.vel) } }
    | Direction.DOWN =>
        shift_body { s with head := { x := s.head.x, y := roundFloat (s.head.y + s.vel) } }
    | Direction.LEFT =>
        shift_body { s with head := { x := roundFloat (s.head.x - s.vel), y := s.head.y } }
    | Direction.RIGHT =>
        shift_body { s with head := { x := roundFloat (s.head.x + s.vel), y := s.head.y } }
    | Direction.NO_DIRECTION => some s

/-- The method `Snake::_add_segment` with the `float` result of
`new_segment.y += size` (and of its three siblings) rounded. -/
def _add_segment_float (s : Snake) : Option Snake :=
  match s.body.getLast? with
  | none => none
  | some new_segment =>
    match s.dir with
    | Direction.UP =>
        some { s with body := s.body ++
          [{ x := new_segment.x, y := roundFloat (new_segment.y + (s.size : ℚ)) }] }
    | Direction.DOWN =>
        some { s with body := s.body ++
          [{ x := new_segment.x, y := roundFloat (new_segment.y - (s.size : ℚ)) }] }
    | Direction.LEFT =>
        some { s with body := s.body ++
          [{ x := roundFloat (new_segment.x - (s.size : ℚ)), y := new_segment.y }] }
    | Direction.RIGHT =>
        some { s with body := s.body ++
          [{ x := roundFloat (new_segment.x + (s.size : ℚ)), y := new_segment.y }] }
    | Direction.NO_DIRECTION => some s

/-- The method `Snake::eat` over the rounded collision test and the rounded
`_add_segment`. -/
def eat_float (s : Snake) (food : Food) (wx wy : ℚ) : Option (Snake × Food) :=
  if !s._is_food_collision_float food then some (s, food)
  else
    let food := food.reset wx wy
    match s._add_segment_float with
    | none => none
    | some s => some (s, food)

/-- The snake after one call, in binary32 arithmetic. -/
def call_float (s : Snake) : Call → Option Snake
  | Call.move inp => s.move_float inp
  | Call.eat food wx wy => (s.eat_float food wx wy).map Prod.fst

/-- The snake after a sequence of calls, in binary32 arithmetic. -/
def calls_float (s : Snake) : List Call → Option Snake
  | [] => some s
  | c :: rest =>
    match s.call_float c with
    | none => none
    | some s' => s'.calls_float rest

end Snake

/-- Both coordinates of `p` are integers of absolute value at most `B`. -/
def onIntegers (B : ℤ) (p : Vec2 ℚ) : Prop :=
  ∃ m n : ℤ, p.x = (m : ℚ) ∧ p.y = (n : ℚ) ∧ |m| ≤ B ∧ |n| ≤ B

/-- The property kept by the calls on a snake of size and velocity 20 placed
on integer coordinates: `body[0] == head`, a contiguous chain, and every body
element on integers of absolute value at most `B`. -/
def Snake.exactWithin (B : ℤ) (s : Snake) : Prop :=
  s.body.head? = some s.head ∧ s.size = 20 ∧ s.vel = 20 ∧
  contiguous 20 s.body ∧ ∀ p ∈ s.body, onIntegers B p

/-- The head `(100.1f, 100)`: the `float` nearest to 100.1 is
`13120307 / 2^17`. -/
def headOffGrid : Vec2 ℚ :=
  { x := 13120307 / 131072, y := 100 }

/-- A food at `(120,100)`, which the head square at `(120.1f, 100)` overlaps. -/
def food120 : Food :=
  { pos := { x := 120, y := 100 }, size := 20 }

/-- The snake `Snake((100.1f, 100), 20)` after one step to the right in
binary32: the head is at `15741747 / 2^17`. -/
def snakeOffGridMoved : Snake :=
  { head := { x := 15741747 / 131072, y := 100 },
    body := [{ x := 15741747 / 131072, y := 100 }],
    size := 20, vel := 20, dir := Direction.RIGHT }

/-- The snake `snakeOffGridMoved` after growing by the segment binary32 gives
it: `4590797 / 2^15`, the `float` nearest to `15741747 / 2^17 + 20`. -/
def snakeOffGridFed : Snake :=
  { head := { x := 15741747 / 131072, y := 100 },
    body := [{ x := 15741747 / 131072, y := 100 }, { x := 4590797 / 32768, y := 100 }],
    size := 20, vel := 20, dir := Direction.RIGHT }

/-! ## Basic facts -/

theorem set_direction_head (s : Snake) (inp : Input) :
    (s._set_direction inp).head = s.head := by
  unfold Snake._set_direction
  split_ifs <;> rfl

theorem set_direction_body (s : Snake) (inp : Input) :
    (s._set_direction inp).body = s.body := by
  unfold Snake._set_direction
  split_ifs <;> rfl

theorem set_direction_vel (s : Snake) (inp : Input) :
    (s._set_direction inp).vel = s.vel := by
  unfold Snake._set_direction
  split_ifs <;> rfl

theorem set_direction_size (s : Snake) (inp : Input) :
    (s._set_direction inp).size = s.size := by
  unfold Snake._set_direction
  split_ifs <;> rfl

theorem shift_body_of_ne_nil (s : Snake) (h : s.body ≠ []) :
    s.shift_body = some { s with body := s.head :: s.body.dropLast } := by
  unfold Snake.shift_body
  split
  · next hnil => exact absurd hnil h
  · next b bs hcons => rw [hcons]

theorem length_dropLast_succ {α : Type} (l : List α) (h : l ≠ []) :
    l.dropLast.length + 1 = l.length := by
  have hpos : 0 < l.length := List.length_pos.mpr h
  rw [List.length_dropLast]
  omega

/-- What `Snake::move` returns when the boundary check does not fire and the
body is non-empty. -/
theorem move_of_not_boundary (s : Snake) (inp : Input) (hne : s.body ≠ [])
    (hb : s._is_boundary_collision = false) :
    s.move inp = some
      (if (s._set_direction inp).dir = Direction.NO_DIRECTION then s._set_direction inp
       else { head := stepHead s (s._set_direction inp).dir,
              body := stepHead s (s._set_direction inp).dir :: s.body.dropLast,
              size := s.size, vel := s.vel, dir := (s._set_direction inp).dir }) := by
  have hh := set_direction_head s inp
  have hbd := set_direction_body s inp
  have hv := set_direction_vel s inp
  have hs := set_direction_size s inp
  unfold Snake.move
  rw [hb]
  simp only [Bool.false_eq_true, if_false]
  generalize s._set_direction inp = t at hh hbd hv hs
  obtain ⟨th, tb, ts, tv, td⟩ := t
  simp only at hh hbd hv hs
  subst hh hbd hv hs
  cases td <;> simp [stepHead, shift_body_of_ne_nil, hne]

/-! ## Claims -/

/-- What `Snake::_add_segment` returns on a non-empty body. -/
theorem add_segment_of_ne_nil (s : Snake) (hne : s.body ≠ []) :
    s._add_segment = some
      (if s.dir = Direction.NO_DIRECTION then s
       else { s with body := s.body ++ [newSegment s (s.body.getLast hne)] }) := by
  unfold Snake._add_segment
  rw [List.getLast?_eq_getLast s.body hne]
  obtain ⟨sh, sb, ss, sv, sd⟩ := s
  cases sd <;> simp [newSegment]

/-- What `Snake::eat` returns on a non-empty body. -/
theorem eat_of_ne_nil (s : Snake) (food : Food) (wx wy : ℚ) (hne : s.body ≠ []) :
    s.eat food wx wy = some
      (if s._is_food_collision food = true ∧ s.dir ≠ Direction.NO_DIRECTION then
         { s with body := s.body ++ [newSegment s (s.body.getLast hne)] }
       else s,
       if s._is_food_collision food = true then food.reset wx wy else food) := by
  unfold Snake.eat
  rw [add_segment_of_ne_nil s hne]
  by_cases hc : s._is_food_collision food = true
  · by_cases hd : s.dir = Direction.NO_DIRECTION <;> simp [hc, hd]
  · simp [hc]

theorem snakeRight120_food115_collision :
    snakeRight120._is_food_collision food115 = true := by
  simp only [Snake._is_food_collision, snakeRight120, food115]
  norm_num

theorem new_food100_collision :
    (Snake.new { x := 100, y := 100 } 20)._is_food_collision food100 = true := by
  simp only [Snake._is_food_collision, Snake.new, food100]
  norm_num

/-- C2 (tail placement on growth), evaluated at the scenario of the
specification: with head `(120,100)`, body `[(120,100)]`, direction Right and
food at `(115,100)`, `eat` appends the segment `(140,100)`, one size ahead of
the tail in the direction of travel, and not `(100,100)` behind it. -/
theorem C2_eat_right_appends_ahead (wx wy : ℚ) :
    snakeRight120._is_food_collision food115 = true ∧
    snakeRight120.eat food115 wx wy = some
      ({ head := { x := 120, y := 100 },
         body := [{ x := 120, y := 100 }, { x := 140, y := 100 }],
         size := 20, vel := 20, dir := Direction.RIGHT },
       { pos := { x := wx, y := wy }, size := 20 }) ∧
    ({ x := 140, y := 100 } : Vec2 ℚ) ≠ { x := 100, y := 100 } := by
  have hc : snakeRight120._is_food_collision food115 = true :=
    snakeRight120_food115_collision
  refine ⟨hc, ?_, by decide⟩
  rw [eat_of_ne_nil _ _ _ _ (by decide), if_pos ⟨hc, by decide⟩, if_pos hc]
  simp only [snakeRight120, food115, newSegment, Food.reset, List.getLast_singleton]
  norm_num

/-- C3 as stated fails: the freshly built snake (direction `NO_DIRECTION`)
whose head square overlaps the food keeps its length through `eat`. -/
theorem C3_no_direction_overlap_keeps_length :
    (Snake.new { x := 100, y := 100 } 20)._is_food_collision food100 = true ∧
    ∃ s' food', (Snake.new { x := 100, y := 100 } 20).eat food100 20 20 = some (s', food') ∧
      s'.body.length = (Snake.new { x := 100, y := 100 } 20).body.length ∧
      s'.body.length ≠ (Snake.new { x := 100, y := 100 } 20).body.length + 1 := by
  have hc : (Snake.new { x := 100, y := 100 } 20)._is_food_collision food100 = true :=
    new_food100_collision
  refine ⟨hc, Snake.new { x := 100, y := 100 } 20, food100.reset 20 20, ?_, rfl, by decide⟩
  rw [eat_of_ne_nil _ _ _ _ (by decide), if_neg (fun h => h.2 rfl), if_pos hc]

/-- C3 amended (growth conservation of `Snake::eat`): for every snake with a
non-empty body, every food and every pair of reset draws, `eat` returns, and
the body length afterwards is the length before plus 1 if and only if the head
square and the food square overlap and the direction is not `NO_DIRECTION`;
in every other case the length is unchanged. -/
theorem C3_eat_growth_conservation (s : Snake) (food : Food) (wx wy : ℚ)
    (hne : s.body ≠ []) :
    ∃ s' food', s.eat food wx wy = some (s', food') ∧
      (s'.body.length = s.body.length + 1 ↔
        (s._is_food_collision food = true ∧ s.dir ≠ Direction.NO_DIRECTION)) ∧
      (¬ (s._is_food_collision food = true ∧ s.dir ≠ Direction.NO_DIRECTION) →
        s'.body.length = s.body.length) := by
  refine ⟨_, _, eat_of_ne_nil s food wx wy hne, ?_, ?_⟩
  · by_cases h : s._is_food_collision food = true ∧ s.dir ≠ Direction.NO_DIRECTION
    · simp [h]
    · rw [if_neg h]
      constructor
      · intro hl
        omega
      · intro h'
        exact absurd h' h
  · intro h
    rw [if_neg h]

/-- C3 amended, at the feeding scenario: the right-moving snake at
`(120,100)` overlaps the food at `(115,100)` and grows from 1 to 2. -/
theorem C3_eat_growth_conservation_witness :
    snakeRight120.body ≠ [] ∧
    ∃ s' food', snakeRight120.eat food115 300 300 = some (s', food') ∧
      (s'.body.length = snakeRight120.body.length + 1 ↔
        (snakeRight120._is_food_collision food115 = true ∧
          snakeRight120.dir ≠ Direction.NO_DIRECTION)) ∧
      (¬ (snakeRight120._is_food_collision food115 = true ∧
          snakeRight120.dir ≠ Direction.NO_DIRECTION) →
        s'.body.length = snakeRight120.body.length) :=
  ⟨by decide, C3_eat_growth_conservation snakeRight120 food115 300 300 (by decide)⟩

/-- A boundary-adjacent snake is returned as it is by `Snake::move`. -/
theorem move_of_boundary (s : Snake) (inp : Input)
    (hb : s._is_boundary_collision = true) : s.move inp = some s := by
  unfold Snake.move
  rw [if_pos hb]

/-- C4 (freeze idempotence): once the head satisfies the boundary condition,
any number of successive `move()` calls, under any keyboard states, return the
snake exactly as it was (head, body and direction included), so the boundary
condition holds again after each call. -/
theorem C4_freeze_idempotence (s : Snake) (hb : s._is_boundary_collision = true)
    (inputs : List Input) :
    moves s inputs = some s ∧
      ∀ s', moves s inputs = some s' →
        s'.head = s.head ∧ s'.body = s.body ∧ s'.dir = s.dir ∧
          s'._is_boundary_collision = true := by
  have hm : moves s inputs = some s := by
    induction inputs with
    | nil => rfl
    | cons inp rest ih =>
      unfold moves
      rw [move_of_boundary s inp hb]
      exact ih
  refine ⟨hm, ?_⟩
  intro s' hs'
  rw [hm] at hs'
  cases hs'
  exact ⟨rfl, rfl, rfl, hb⟩

/-- C4 at a snake on the left margin (`head.x = 2`): holding D, then W, then
nothing leaves it in place. -/
theorem C4_freeze_idempotence_witness :
    snakeAtLeftEdge._is_boundary_collision = true ∧
    moves snakeAtLeftEdge
      [heldKeys [KeyboardKey.KEY_D], heldKeys [KeyboardKey.KEY_W], heldKeys []]
      = some snakeAtLeftEdge :=
  ⟨by decide,
   (C4_freeze_idempotence snakeAtLeftEdge (by decide)
      [heldKeys [KeyboardKey.KEY_D], heldKeys [KeyboardKey.KEY_W], heldKeys []]).1⟩

theorem ne_nil_of_head_eq_some {α : Type} {l : List α} {a : α} (h : l.head? = some a) :
    l ≠ [] := by
  intro hl
  rw [hl] at h
  cases h

/-- The method `Snake::move` returns, and keeps `body[0] == head`. -/
theorem move_preserves_front (s : Snake) (inp : Input)
    (h : s.body.head? = some s.head) :
    ∃ s', s.move inp = some s' ∧ s'.body.head? = some s'.head := by
  by_cases hb : s._is_boundary_collision = true
  · exact ⟨s, move_of_boundary s inp hb, h⟩
  · have hb' : s._is_boundary_collision = false := by simpa using hb
    refine ⟨_, move_of_not_boundary s inp (ne_nil_of_head_eq_some h) hb', ?_⟩
    split_ifs
    · rw [set_direction_body, set_direction_head]
      exact h
    · rfl

/-- The method `Snake::eat` returns, and keeps `body[0] == head`. -/
theorem eat_preserves_front (s : Snake) (food : Food) (wx wy : ℚ)
    (h : s.body.head? = some s.head) :
    ∃ r, s.eat food wx wy = some r ∧ r.1.body.head? = some r.1.head := by
  refine ⟨_, eat_of_ne_nil s food wx wy (ne_nil_of_head_eq_some h), ?_⟩
  show (if _ then _ else s).body.head? = some (if _ then _ else s).head
  split_ifs
  · show (s.body ++ _).head? = some s.head
    rw [List.head?_append_of_ne_nil _ (ne_nil_of_head_eq_some h)]
    exact h
  · exact h

/-- Every call returns and keeps `body[0] == head`. -/
theorem call_preserves_front (s : Snake) (c : Call)
    (h : s.body.head? = some s.head) :
    ∃ s', s.call c = some s' ∧ s'.body.head? = some s'.head := by
  cases c with
  | move inp => exact move_preserves_front s inp h
  | eat food wx wy =>
    obtain ⟨r, hr, hf⟩ := eat_preserves_front s food wx wy h
    refine ⟨r.1, ?_, hf⟩
    show (s.eat food wx wy).map Prod.fst = some r.1
    rw [hr]
    rfl

/-- Every sequence of calls returns and keeps `body[0] == head`. -/
theorem calls_preserve_front (cs : List Call) :
    ∀ s : Snake, s.body.head? = some s.head →
      ∃ s', s.calls cs = some s' ∧ s'.body.head? = some s'.head := by
  induction cs with
  | nil =>
    intro s h
    exact ⟨s, rfl, h⟩
  | cons c rest ih =>
    intro s h
    obtain ⟨s1, hc, h1⟩ := call_preserves_front s c h
    obtain ⟨s2, hcs, h2⟩ := ih s1 h1
    refine ⟨s2, ?_, h2⟩
    unfold Snake.calls
    rw [hc]
    exact hcs

/-- C5 (representation invariant): starting from `Snake(head, size)`, every
finite sequence of `move()` and `eat()` calls (any keyboard states, foods and
reset draws) returns a snake, so `pop_back` and `back` never met an empty body,
and that snake has a non-empty body with `body[0] == head`. As the sequence is
arbitrary, this holds after each call of a run. -/
theorem C5_representation_invariant (head : Vec2 ℚ) (size : Nat) (cs : List Call) :
    ∃ s, (Snake.new head size).calls cs = some s ∧
      s.body ≠ [] ∧ s.body.head? = some s.head := by
  obtain ⟨s, hs, hf⟩ := calls_preserve_front cs (Snake.new head size) rfl
  exact ⟨s, hs, ne_nil_of_head_eq_some hf, hf⟩

/-- C6 (rigid-chain shift): for a snake with a non-empty body that is not
boundary-adjacent and whose resolved direction is Up, Down, Left or Right,
`move` returns a snake whose body is the new head followed by the old body
without its last element; so `body_after[i] == body_before[i-1]` for every
`1 <= i < len(body)`. -/
theorem C6_rigid_chain_shift (s : Snake) (inp : Input) (hne : s.body ≠ [])
    (hb : s._is_boundary_collision = false)
    (hd : (s._set_direction inp).dir ≠ Direction.NO_DIRECTION) :
    ∃ s', s.move inp = some s' ∧
      s'.body = s'.head :: s.body.dropLast ∧
      s'.body.length = s.body.length ∧
      ∀ i : Nat, 1 ≤ i → i < s.body.length →
        s'.body[i]? = s.body[i - 1]? ∧ (s'.body[i]?).isSome = true := by
  refine ⟨_, move_of_not_boundary s inp hne hb, ?_⟩
  rw [if_neg hd]
  refine ⟨rfl, ?_, ?_⟩
  · simpa using length_dropLast_succ s.body hne
  · intro i hi hlt
    obtain ⟨j, rfl⟩ : ∃ j, i = j + 1 := ⟨i - 1, by omega⟩
    have hj : j < s.body.length - 1 := by omega
    have hget : (stepHead s (s._set_direction inp).dir :: s.body.dropLast)[j + 1]?
        = s.body[j]? := by
      rw [List.getElem?_cons_succ, List.getElem?_dropLast, if_pos hj]
    refine ⟨by simpa using hget, ?_⟩
    show ((stepHead s (s._set_direction inp).dir :: s.body.dropLast)[j + 1]?).isSome = true
    rw [hget, List.getElem?_eq_getElem (by omega)]
    rfl

/-- C6 at a three-segment snake heading up: the body
`[(200,200), (200,220), (220,220)]` becomes `[(200,180), (200,200), (200,220)]`. -/
theorem C6_rigid_chain_shift_witness :
    snakeUp3.body ≠ [] ∧ snakeUp3._is_boundary_collision = false ∧
    (snakeUp3._set_direction (heldKeys [])).dir ≠ Direction.NO_DIRECTION ∧
    snakeUp3.move (heldKeys []) = some
      { snakeUp3 with
        head := { x := 200, y := 180 },
        body := [{ x := 200, y := 180 }, { x := 200, y := 200 }, { x := 200, y := 220 }] } ∧
    ∃ s', snakeUp3.move (heldKeys []) = some s' ∧
      s'.body = s'.head :: snakeUp3.body.dropLast ∧
      s'.body.length = snakeUp3.body.length ∧
      ∀ i : Nat, 1 ≤ i → i < snakeUp3.body.length →
        s'.body[i]? = snakeUp3.body[i - 1]? ∧ (s'.body[i]?).isSome = true := by
  refine ⟨by decide, by decide, by decide, ?_,
    C6_rigid_chain_shift snakeUp3 (heldKeys []) (by decide) (by decide) (by decide)⟩
  have hdir : (snakeUp3._set_direction (heldKeys [])).dir = Direction.UP := by decide
  rw [move_of_not_boundary _ _ (by decide) (by decide), hdir, if_neg (by decide)]
  simp only [stepHead, snakeUp3, List.dropLast]
  norm_num

/-- The test of `Snake::_is_food_collision` as four strict inequalities. -/
theorem is_food_collision_iff (s : Snake) (food : Food) :
    s._is_food_collision food = true ↔
      (s.head.x < food.pos.x + (food.size : ℚ) ∧ food.pos.x < s.head.x + (s.size : ℚ)) ∧
      (s.head.y < food.pos.y + (food.size : ℚ) ∧ food.pos.y < s.head.y + (s.size : ℚ)) := by
  simp [Snake._is_food_collision]

/-- Two open intervals of positive length that pairwise start before the
other ends share their middle point. -/
theorem open_intervals_meet (a la b lb : ℚ) (hla : 0 < la) (hlb : 0 < lb)
    (h1 : a < b + lb) (h2 : b < a + la) :
    ∃ p : ℚ, (a < p ∧ p < a + la) ∧ (b < p ∧ p < b + lb) := by
  refine ⟨(max a b + min (a + la) (b + lb)) / 2, ?_⟩
  have hlo : max a b < min (a + la) (b + lb) := by
    rw [max_lt_iff, lt_min_iff, lt_min_iff]
    exact ⟨⟨by linarith, h1⟩, ⟨h2, by linarith⟩⟩
  have ha : a ≤ max a b := le_max_left a b
  have hb : b ≤ max a b := le_max_right a b
  have hA : min (a + la) (b + lb) ≤ a + la := min_le_left _ _
  have hB : min (a + la) (b + lb) ≤ b + lb := min_le_right _ _
  refine ⟨⟨?_, ?_⟩, ⟨?_, ?_⟩⟩ <;> linarith

/-- C7 (head/food collision test against the reference definition): with
rational coordinates and positive sizes, `_is_food_collision` holds exactly
when the open head square and the open food square have a common point; in
particular squares whose edges merely touch do not collide. -/
theorem C7_food_collision_is_open_overlap (s : Snake) (food : Food)
    (hs : 0 < s.size) (hf : 0 < food.size) :
    (s._is_food_collision food = true ↔
      openSquaresMeet s.head (s.size : ℚ) food.pos (food.size : ℚ)) ∧
    ((s.head.x + (s.size : ℚ) = food.pos.x ∨ food.pos.x + (food.size : ℚ) = s.head.x ∨
      s.head.y + (s.size : ℚ) = food.pos.y ∨ food.pos.y + (food.size : ℚ) = s.head.y) →
      s._is_food_collision food = false) := by
  have hs' : (0 : ℚ) < (s.size : ℚ) := by exact_mod_cast hs
  have hf' : (0 : ℚ) < (food.size : ℚ) := by exact_mod_cast hf
  constructor
  · rw [is_food_collision_iff]
    constructor
    · rintro ⟨⟨hx1, hx2⟩, ⟨hy1, hy2⟩⟩
      obtain ⟨px, hpx, hqx⟩ := open_intervals_meet _ _ _ _ hs' hf' hx1 hx2
      obtain ⟨py, hpy, hqy⟩ := open_intervals_meet _ _ _ _ hs' hf' hy1 hy2
      exact ⟨{ x := px, y := py }, hpx, hpy, hqx, hqy⟩
    · rintro ⟨p, ⟨h1, h2⟩, ⟨h3, h4⟩, ⟨h5, h6⟩, ⟨h7, h8⟩⟩
      exact ⟨⟨by linarith, by linarith⟩, ⟨by linarith, by linarith⟩⟩
  · intro htouch
    rw [← Bool.not_eq_true, is_food_collision_iff]
    rintro ⟨⟨hx1, hx2⟩, ⟨hy1, hy2⟩⟩
    rcases htouch with h | h | h | h <;> linarith

/-- C7 at the feeding scenario: the head square at `(120,100)` and the food
square at `(115,100)`, both of side 20, collide and share an interior point. -/
theorem C7_food_collision_is_open_overlap_witness :
    0 < snakeRight120.size ∧ 0 < food115.size ∧
    snakeRight120._is_food_collision food115 = true ∧
    openSquaresMeet snakeRight120.head (snakeRight120.size : ℚ) food115.pos
      (food115.size : ℚ) := by
  have h := (C7_food_collision_is_open_overlap snakeRight120 food115
    (by decide) (by decide)).1
  exact ⟨by decide, by decide, snakeRight120_food115_collision,
    h.mp snakeRight120_food115_collision⟩

/-- The direction left by `Snake::_set_direction`, as a cascade on the held
keys read from the last test to the first. -/
theorem set_direction_dir (s : Snake) (inp : Input) :
    (s._set_direction inp).dir =
      if inp.IsKeyDown KeyboardKey.KEY_D = true then Direction.RIGHT
      else if inp.IsKeyDown KeyboardKey.KEY_A = true then Direction.LEFT
      else if inp.IsKeyDown KeyboardKey.KEY_S = true then Direction.DOWN
      else if inp.IsKeyDown KeyboardKey.KEY_W = true then Direction.UP
      else s.dir := by
  unfold Snake._set_direction
  split_ifs <;> rfl

theorem lastHeldDirection_eq (inp : Input) (prev : Direction) :
    lastHeldDirection inp prev =
      if inp.IsKeyDown KeyboardKey.KEY_D = true then Direction.RIGHT
      else if inp.IsKeyDown KeyboardKey.KEY_A = true then Direction.LEFT
      else if inp.IsKeyDown KeyboardKey.KEY_S = true then Direction.DOWN
      else if inp.IsKeyDown KeyboardKey.KEY_W = true then Direction.UP
      else prev := by
  unfold lastHeldDirection
  cases hw : inp.IsKeyDown KeyboardKey.KEY_W <;>
  cases hs : inp.IsKeyDown KeyboardKey.KEY_S <;>
  cases ha : inp.IsKeyDown KeyboardKey.KEY_A <;>
  cases hd : inp.IsKeyDown KeyboardKey.KEY_D <;>
  simp [List.filter, hw, hs, ha, hd]

/-- C8 (direction resolution): `_set_direction` leaves the direction of the
last held key in the fixed order W (Up), S (Down), A (Left), D (Right), so D
overrides A, A overrides S and S overrides W, and leaves the previous
direction when none of them is held; whatever the previous direction, and
`move()`, when it passes the boundary check, returns a snake with that
direction. -/
theorem C8_direction_resolution (s : Snake) (inp : Input) :
    (s._set_direction inp).dir = lastHeldDirection inp s.dir ∧
    (s._set_direction inp).dir =
      (if inp.IsKeyDown KeyboardKey.KEY_D = true then Direction.RIGHT
       else if inp.IsKeyDown KeyboardKey.KEY_A = true then Direction.LEFT
       else if inp.IsKeyDown KeyboardKey.KEY_S = true then Direction.DOWN
       else if inp.IsKeyDown KeyboardKey.KEY_W = true then Direction.UP
       else s.dir) ∧
    (s._is_boundary_collision = false → s.body ≠ [] →
      ∃ s', s.move inp = some s' ∧ s'.dir = lastHeldDirection inp s.dir) := by
  refine ⟨?_, set_direction_dir s inp, ?_⟩
  · rw [set_direction_dir, lastHeldDirection_eq]
  · intro hb hne
    refine ⟨_, move_of_not_boundary s inp hne hb, ?_⟩
    rw [lastHeldDirection_eq, ← set_direction_dir]
    split_ifs <;> rfl

/-- C8 at a reversal: a snake heading right with only A held resolves to Left
and moves left in that very tick; with W and D held together D wins. -/
theorem C8_direction_resolution_witness :
    snakeRight100.dir = Direction.RIGHT ∧
    (snakeRight100._set_direction (heldKeys [KeyboardKey.KEY_A])).dir = Direction.LEFT ∧
    (snakeRight100._set_direction
      (heldKeys [KeyboardKey.KEY_W, KeyboardKey.KEY_D])).dir = Direction.RIGHT ∧
    ∃ s', snakeRight100.move (heldKeys [KeyboardKey.KEY_A]) = some s' ∧
      s'.dir = Direction.LEFT := by
  have hA := C8_direction_resolution snakeRight100 (heldKeys [KeyboardKey.KEY_A])
  have hWD := C8_direction_resolution snakeRight100
    (heldKeys [KeyboardKey.KEY_W, KeyboardKey.KEY_D])
  have eA : lastHeldDirection (heldKeys [KeyboardKey.KEY_A]) snakeRight100.dir
      = Direction.LEFT := by decide
  have eWD : lastHeldDirection (heldKeys [KeyboardKey.KEY_W, KeyboardKey.KEY_D])
      snakeRight100.dir = Direction.RIGHT := by decide
  obtain ⟨s', hm, hdir⟩ := hA.2.2 (by decide) (by decide)
  exact ⟨rfl, hA.1.trans eA, hWD.1.trans eWD, s', hm, hdir.trans eA⟩

/-- C9 (no-direction no-op): a snake whose direction is `NO_DIRECTION`, at any
head position and with any body, is returned unchanged by `move()` in a tick
where none of W, S, A, D is held. -/
theorem C9_no_direction_noop (s : Snake) (inp : Input)
    (hdir : s.dir = Direction.NO_DIRECTION)
    (hw : inp.IsKeyDown KeyboardKey.KEY_W = false)
    (hs : inp.IsKeyDown KeyboardKey.KEY_S = false)
    (ha : inp.IsKeyDown KeyboardKey.KEY_A = false)
    (hd : inp.IsKeyDown KeyboardKey.KEY_D = false) :
    s.move inp = some s := by
  have hset : s._set_direction inp = s := by
    unfold Snake._set_direction
    simp [hw, hs, ha, hd]
  unfold Snake.move
  split_ifs
  · rfl
  · simp only [hset]
    rw [hdir]

/-- C9 at the scenario of the specification: the initial snake with body
`[(100,100)]` and no direction keeps its body when no key is held. -/
theorem C9_no_direction_noop_witness :
    (Snake.new { x := 100, y := 100 } 20).dir = Direction.NO_DIRECTION ∧
    (Snake.new { x := 100, y := 100 } 20).body = [{ x := 100, y := 100 }] ∧
    (Snake.new { x := 100, y := 100 } 20).move (heldKeys [])
      = some (Snake.new { x := 100, y := 100 } 20) :=
  ⟨rfl, rfl, C9_no_direction_noop (Snake.new { x := 100, y := 100 } 20) (heldKeys [])
    rfl rfl rfl rfl rfl⟩

/-- C10 (start transition): `StartLevel::update` yields `RUNNING` when the
edge-triggered signal `IsKeyPressed(KEY_SPACE)` is true and the given state
when it is false; replacing the level-triggered `IsKeyDown` answers of the
frame by any others does not change the result. -/
theorem C10_start_transition (inp : Input) (state : GameState) :
    (inp.IsKeyPressed KeyboardKey.KEY_SPACE = true →
      StartLevel.update inp state = GameState.RUNNING) ∧
    (inp.IsKeyPressed KeyboardKey.KEY_SPACE = false →
      StartLevel.update inp state = state) ∧
    (∀ down : KeyboardKey → Bool,
      StartLevel.update { inp with IsKeyDown := down } state
        = StartLevel.update inp state) := by
  refine ⟨?_, ?_, ?_⟩
  · intro h
    unfold StartLevel.update
    rw [if_pos h]
  · intro h
    unfold StartLevel.update
    rw [h]
    rfl
  · intro down
    rfl

/-- C10 at a frame where space is held but not freshly pressed: the state
`START` stays `START`. -/
theorem C10_start_transition_witness :
    spaceHeldNotPressed.IsKeyDown KeyboardKey.KEY_SPACE = true ∧
    spaceHeldNotPressed.IsKeyPressed KeyboardKey.KEY_SPACE = false ∧
    StartLevel.update spaceHeldNotPressed GameState.START = GameState.START :=
  ⟨rfl, rfl, (C10_start_transition spaceHeldNotPressed GameState.START).2.1 rfl⟩

/-- An update tick of the running level returns and keeps `body[0] == head`. -/
theorem tick_preserves_front (l : RunningLevel) (f : Frame)
    (h : l.snake.body.head? = some l.snake.head) :
    ∃ l', l.tick f = some l' ∧ l'.snake.body.head? = some l'.snake.head := by
  obtain ⟨s1, hm, h1⟩ := move_preserves_front l.snake f.inp h
  obtain ⟨r, he, h2⟩ := eat_preserves_front s1 l.food f.wx f.wy h1
  refine ⟨{ snake := r.1, food := r.2 }, ?_, h2⟩
  unfold RunningLevel.tick
  rw [hm]
  simp only [he]

theorem game_new_wellFormed : Game.new.wellFormed :=
  ⟨Or.inl rfl, rfl, ⟨RunningLevel.new, rfl, rfl⟩, rfl, rfl⟩

/-- One frame of `Game::run` from a well-formed game returns a well-formed
game, and a game in state `RUNNING` stays in state `RUNNING`. -/
theorem frame_preserves_wellFormed (g : Game) (f : Frame) (h : g.wellFormed) :
    ∃ g', g.frame f = some g' ∧ g'.wellFormed ∧
      (g.state = GameState.RUNNING → g'.state = GameState.RUNNING) := by
  obtain ⟨gs, gc⟩ := g
  obtain ⟨hst, hS, ⟨l, hR, hl⟩, hE, hP⟩ := h
  simp only at hst hS hR hE hP
  rcases hst with hst | hst
  · subst hst
    by_cases hp : f.inp.IsKeyPressed KeyboardKey.KEY_SPACE = true
    · refine ⟨{ state := GameState.RUNNING, level_cache := gc }, ?_,
        ⟨Or.inr rfl, hS, ⟨l, hR, hl⟩, hE, hP⟩, fun _ => rfl⟩
      simp [Game.frame, StartLevel.update, hS, hR, hp]
    · refine ⟨{ state := GameState.START, level_cache := gc }, ?_,
        ⟨Or.inl rfl, hS, ⟨l, hR, hl⟩, hE, hP⟩, fun hc => hc⟩
      simp [Game.frame, StartLevel.update, hS, hp]
  · subst hst
    obtain ⟨l', ht, hl'⟩ := tick_preserves_front l f hl
    refine ⟨{ state := GameState.RUNNING,
              level_cache := fun k =>
                if k = GameState.RUNNING then some (Level.running l') else gc k }, ?_,
        ⟨Or.inr rfl, ?_, ⟨l', ?_, hl'⟩, ?_, ?_⟩, fun _ => rfl⟩
    · simp [Game.frame, RunningLevel.update, hR, ht]
    · simpa using hS
    · simp
    · simpa using hE
    · simpa using hP

/-- Every run from a well-formed game returns a well-formed game. -/
theorem run_preserves_wellFormed (frames : List Frame) :
    ∀ g : Game, g.wellFormed →
      ∃ g', g.run frames = some g' ∧ g'.wellFormed ∧
        (g.state = GameState.RUNNING → g'.state = GameState.RUNNING) := by
  induction frames with
  | nil =>
    intro g h
    exact ⟨g, rfl, h, fun hc => hc⟩
  | cons f rest ih =>
    intro g h
    obtain ⟨g1, hf, h1, hr1⟩ := frame_preserves_wellFormed g f h
    obtain ⟨g2, hrun, h2, hr2⟩ := ih g1 h1
    refine ⟨g2, ?_, h2, fun hc => hr2 (hr1 hc)⟩
    unfold Game.run
    rw [hf]
    exact hrun

/-- C11 (game-state reachability): from the initial game, every sequence of
frames of `Game::run` returns a game whose state is `START` or `RUNNING`,
never `END` or `PAUSE`, and is a key of the level mapping; and when that state
is `RUNNING`, it is `RUNNING` again after every further sequence of frames. -/
theorem C11_game_state_reachability (frames : List Frame) :
    ∃ g, Game.new.run frames = some g ∧
      (g.state = GameState.START ∨ g.state = GameState.RUNNING) ∧
      g.state ≠ GameState.END ∧ g.state ≠ GameState.PAUSE ∧
      (g.level_cache g.state).isSome = true ∧
      (g.state = GameState.RUNNING →
        ∀ later : List Frame, ∃ g', g.run later = some g' ∧
          g'.state = GameState.RUNNING) := by
  obtain ⟨g, hrun, hw, -⟩ := run_preserves_wellFormed frames Game.new game_new_wellFormed
  have hw' := hw
  obtain ⟨hst, hS, ⟨l, hR, -⟩, -, -⟩ := hw'
  refine ⟨g, hrun, hst, ?_, ?_, ?_, ?_⟩
  · rcases hst with h | h <;> rw [h] <;> decide
  · rcases hst with h | h <;> rw [h] <;> decide
  · rcases hst with h | h <;> rw [h]
    · rw [hS]
      rfl
    · rw [hR]
      rfl
  · intro hrunning later
    obtain ⟨g', hrun', -, hkeep⟩ := run_preserves_wellFormed later g hw
    exact ⟨g', hrun', hkeep hrunning⟩

/-- C11 on a concrete run: an idle frame followed by a frame with space pressed
leads from `START` to `RUNNING`, which no later frame leaves. -/
theorem C11_game_state_reachability_witness :
    ∃ g, Game.new.run [heldFrame [], spacePressedFrame] = some g ∧
      g.state = GameState.RUNNING ∧
      ∀ later : List Frame, ∃ g', g.run later = some g' ∧
        g'.state = GameState.RUNNING := by
  obtain ⟨g, hrun, -, -, -, -, hkeep⟩ :=
    C11_game_state_reachability [heldFrame [], spacePressedFrame]
  have hstate : g.state = GameState.RUNNING := by
    have h2 : (Game.new.run [heldFrame [], spacePressedFrame]).map Game.state
        = some GameState.RUNNING := by decide!
    rw [hrun] at h2
    simpa using h2
  exact ⟨g, hrun, hstate, hkeep hstate⟩

/-- C13 (food relocation bound): for every food and every pair of draws that
`WIDTH_DIS` and `HEIGHT_DIS` can return, the position after `reset()` has
`20 <= x <= 1580 = WINDOW_WIDTH - 20` and `20 <= y <= 1180 = WINDOW_HEIGHT - 20`,
and the size is unchanged. -/
theorem C13_food_relocation_bound (food : Food) (wx wy : ℚ)
    (hx : WIDTH_DIS wx) (hy : HEIGHT_DIS wy) :
    ((20 : ℚ) ≤ (food.reset wx wy).pos.x ∧ (food.reset wx wy).pos.x ≤ 1580) ∧
    ((20 : ℚ) ≤ (food.reset wx wy).pos.y ∧ (food.reset wx wy).pos.y ≤ 1180) ∧
    (food.reset wx wy).size = food.size ∧
    ((WINDOW_WIDTH : ℚ) - 20 = 1580 ∧ (WINDOW_HEIGHT : ℚ) - 20 = 1180) := by
  have ew : ((subU32 WINDOW_WIDTH 20 : Nat) : ℚ) = 1580 := by
    norm_num [subU32, WINDOW_WIDTH]
  have eh : ((subU32 WINDOW_HEIGHT 20 : Nat) : ℚ) = 1180 := by
    norm_num [subU32, WINDOW_HEIGHT]
  obtain ⟨hx1, hx2⟩ := hx
  obtain ⟨hy1, hy2⟩ := hy
  rw [ew] at hx2
  rw [eh] at hy2
  refine ⟨⟨hx1, le_of_lt hx2⟩, ⟨hy1, le_of_lt hy2⟩, rfl, ?_, ?_⟩
  · norm_num [WINDOW_WIDTH]
  · norm_num [WINDOW_HEIGHT]

/-- C13 at the draws `(320, 300)` on the food of the feeding scenario. -/
theorem C13_food_relocation_bound_witness :
    WIDTH_DIS 320 ∧ HEIGHT_DIS 300 ∧
    (food115.reset 320 300).pos = { x := 320, y := 300 } ∧
    ((20 : ℚ) ≤ (food115.reset 320 300).pos.x ∧ (food115.reset 320 300).pos.x ≤ 1580) ∧
    ((20 : ℚ) ≤ (food115.reset 320 300).pos.y ∧ (food115.reset 320 300).pos.y ≤ 1180) ∧
    (food115.reset 320 300).size = food115.size := by
  have h := C13_food_relocation_bound food115 320 300 (by decide) (by decide)
  exact ⟨by decide, by decide, rfl, h.1, h.2.1, h.2.2.1⟩

/-- C17 (Vec2 algebra over the integers): `dot` is symmetric, and additive,
subtractive and homogeneous in its first argument with respect to the
componentwise operators of `Vec2`. -/
theorem C17_vec2_dot_algebra (a b c : Vec2 ℤ) (k : ℤ) :
    a.dot b = b.dot a ∧
    (a.add b).dot c = a.dot c + b.dot c ∧
    (a.sub b).dot c = a.dot c - b.dot c ∧
    (a.mul k).dot b = k * a.dot b := by
  refine ⟨?_, ?_, ?_, ?_⟩ <;> simp only [Vec2.dot, Vec2.add, Vec2.sub, Vec2.mul] <;> ring

/-- When `_set_direction` leaves `NO_DIRECTION`, it changed nothing. -/
theorem set_direction_eq_self (s : Snake) (inp : Input)
    (h : (s._set_direction inp).dir = Direction.NO_DIRECTION) :
    s._set_direction inp = s := by
  unfold Snake._set_direction at h ⊢
  split_ifs at h ⊢
  rfl

/-- A `move()` that returns a snake without direction returned its argument. -/
theorem move_eq_self_of_no_direction (s s' : Snake) (inp : Input)
    (hne : s.body ≠ []) (hm : s.move inp = some s')
    (hd : s'.dir = Direction.NO_DIRECTION) : s' = s := by
  by_cases hb : s._is_boundary_collision = true
  · rw [move_of_boundary s inp hb] at hm
    exact (Option.some.inj hm).symm
  · have hb' : s._is_boundary_collision = false := by simpa using hb
    rw [move_of_not_boundary s inp hne hb'] at hm
    have hm' := Option.some.inj hm
    by_cases hdir : (s._set_direction inp).dir = Direction.NO_DIRECTION
    · rw [if_pos hdir] at hm'
      rw [← hm']
      exact set_direction_eq_self s inp hdir
    · rw [if_neg hdir] at hm'
      rw [← hm'] at hd
      exact absurd hd hdir

/-- The method `Snake::eat` keeps head, size, velocity and direction. -/
theorem eat_frame (s : Snake) (food : Food) (wx wy : ℚ) (r : Snake × Food)
    (hne : s.body ≠ []) (he : s.eat food wx wy = some r) :
    r.1.head = s.head ∧ r.1.size = s.size ∧ r.1.vel = s.vel ∧ r.1.dir = s.dir := by
  rw [eat_of_ne_nil s food wx wy hne] at he
  have he' := Option.some.inj he
  rw [← he']
  show (if _ then _ else s).head = s.head ∧ (if _ then _ else s).size = s.size ∧
    (if _ then _ else s).vel = s.vel ∧ (if _ then _ else s).dir = s.dir
  split_ifs <;> exact ⟨rfl, rfl, rfl, rfl⟩

/-- An update tick in its two steps: the snake returned by `move()`, the pair
returned by `eat()`, and the level assembled from it. -/
theorem tick_steps (l : RunningLevel) (f : Frame)
    (h : l.snake.body.head? = some l.snake.head) :
    ∃ s1 r, l.snake.move f.inp = some s1 ∧ s1.body.head? = some s1.head ∧
      s1.eat l.food f.wx f.wy = some r ∧ r.1.body.head? = some r.1.head ∧
      l.tick f = some { snake := r.1, food := r.2 } := by
  obtain ⟨s1, hm, h1⟩ := move_preserves_front l.snake f.inp h
  obtain ⟨r, he, h2⟩ := eat_preserves_front s1 l.food f.wx f.wy h1
  refine ⟨s1, r, hm, h1, he, h2, ?_⟩
  unfold RunningLevel.tick
  rw [hm]
  simp only [he]

theorem new_level_no_collision :
    RunningLevel.new.snake._is_food_collision RunningLevel.new.food = false := by
  decide!

/-- The initial level is the only one a tick can leave without direction. -/
theorem tick_preserves_initial (l l' : RunningLevel) (f : Frame)
    (h : l.snake.body.head? = some l.snake.head)
    (hinit : l.snake.dir = Direction.NO_DIRECTION → l = RunningLevel.new)
    (ht : l.tick f = some l') :
    l'.snake.dir = Direction.NO_DIRECTION → l' = RunningLevel.new := by
  intro hd
  obtain ⟨s1, r, hm, h1, he, -, ht'⟩ := tick_steps l f h
  rw [ht'] at ht
  have hl' := Option.some.inj ht
  have hfr := eat_frame s1 l.food f.wx f.wy r (ne_nil_of_head_eq_some h1) he
  have hd1 : s1.dir = Direction.NO_DIRECTION := by
    rw [← hfr.2.2.2, ← hd, ← hl']
  have hs1 : s1 = l.snake :=
    move_eq_self_of_no_direction l.snake s1 f.inp (ne_nil_of_head_eq_some h) hm hd1
  have hl : l = RunningLevel.new := hinit (by rw [← hs1]; exact hd1)
  rw [hs1, hl, eat_of_ne_nil _ _ _ _ (by decide)] at he
  rw [new_level_no_collision] at he
  simp only [Bool.false_eq_true, false_and, if_false] at he
  have hr := Option.some.inj he
  rw [← hl', ← hr]

/-- Every sequence of ticks from a level whose snake has `body[0] == head`
returns such a level, and the initial level is the only one without
direction. -/
theorem ticks_preserve_initial (frames : List Frame) :
    ∀ l : RunningLevel, l.snake.body.head? = some l.snake.head →
      (l.snake.dir = Direction.NO_DIRECTION → l = RunningLevel.new) →
      ∃ l', l.ticks frames = some l' ∧ l'.snake.body.head? = some l'.snake.head ∧
        (l'.snake.dir = Direction.NO_DIRECTION → l' = RunningLevel.new) := by
  induction frames with
  | nil =>
    intro l h hinit
    exact ⟨l, rfl, h, hinit⟩
  | cons f rest ih =>
    intro l h hinit
    obtain ⟨l1, ht, h1⟩ := tick_preserves_front l f h
    obtain ⟨l2, hts, h2, hinit2⟩ := ih l1 h1 (tick_preserves_initial l l1 f h hinit ht)
    refine ⟨l2, ?_, h2, hinit2⟩
    unfold RunningLevel.ticks
    rw [ht]
    exact hts

/-- C12 (eating without direction is unreachable): every sequence of update
ticks from the initial running level returns a level in which a snake without
direction does not overlap the food; and in the next tick, under any keyboard
state and draws, the snake returned by `move()` overlaps the food only with a
direction, so that `eat()` appends a segment whenever it resets the food. -/
theorem C12_no_direction_never_eats (frames : List Frame) :
    ∃ l, RunningLevel.new.ticks frames = some l ∧
      (l.snake.dir = Direction.NO_DIRECTION →
        l.snake._is_food_collision l.food = false) ∧
      ∀ (inp : Input) (wx wy : ℚ), ∃ s1 r,
        l.snake.move inp = some s1 ∧ s1.eat l.food wx wy = some r ∧
        (s1.dir = Direction.NO_DIRECTION → s1._is_food_collision l.food = false) ∧
        (s1._is_food_collision l.food = true →
          r.1.body.length = s1.body.length + 1) := by
  obtain ⟨l, hts, hfront, hinit⟩ :=
    ticks_preserve_initial frames RunningLevel.new rfl (fun _ => rfl)
  have hno : ∀ s : Snake, s = l.snake → s.dir = Direction.NO_DIRECTION →
      s._is_food_collision l.food = false := by
    intro s hs hd
    have hl : l = RunningLevel.new := hinit (by rw [← hs]; exact hd)
    rw [hs, hl]
    exact new_level_no_collision
  refine ⟨l, hts, hno l.snake rfl, ?_⟩
  intro inp wx wy
  obtain ⟨s1, r, hm, h1, he, -, -⟩ :=
    tick_steps l { inp := inp, wx := wx, wy := wy } hfront
  have hne := ne_nil_of_head_eq_some hfront
  have hne1 := ne_nil_of_head_eq_some h1
  have hd1 : s1.dir = Direction.NO_DIRECTION → s1._is_food_collision l.food = false :=
    fun hd => hno s1 (move_eq_self_of_no_direction l.snake s1 inp hne hm hd) hd
  refine ⟨s1, r, hm, he, hd1, ?_⟩
  intro hc
  have hdir : s1.dir ≠ Direction.NO_DIRECTION := by
    intro hd
    rw [hd1 hd] at hc
    cases hc
  rw [eat_of_ne_nil s1 l.food wx wy hne1, if_pos ⟨hc, hdir⟩] at he
  rw [← Option.some.inj he]
  simp

/-- The boundary check of a snake of size 20, as strict bounds on the head. -/
theorem not_boundary_iff (s : Snake) (hs : s.size = 20) :
    s._is_boundary_collision = false ↔
      (2 < s.head.x ∧ s.head.x < 1578) ∧ (2 < s.head.y ∧ s.head.y < 1178) := by
  have ew : ((subU32 (subU32 WINDOW_WIDTH 20) 2 : Nat) : ℚ) = 1578 := by
    norm_num [subU32, WINDOW_WIDTH]
  have eh : ((subU32 (subU32 WINDOW_HEIGHT 20) 2 : Nat) : ℚ) = 1178 := by
    norm_num [subU32, WINDOW_HEIGHT]
  unfold Snake._is_boundary_collision
  rw [hs, ew, eh]
  simp only [Bool.or_eq_false_iff, decide_eq_false_iff_not, not_le, ge_iff_le]

theorem new_level_onGrid : RunningLevel.new.snake.onGrid := by
  refine ⟨rfl, ?_, 5, 5, ?_, ?_, by decide, by decide⟩
  · show SNAKE_VELOCITY = 20
    norm_num [SNAKE_VELOCITY, SNAKE_SIZE]
  · show (100 : ℚ) = 20 * ((5 : ℤ) : ℚ)
    norm_num
  · show (100 : ℚ) = 20 * ((5 : ℤ) : ℚ)
    norm_num

/-- The method `Snake::move` keeps a snake on the grid of the play field: it
steps only from columns 1 to 78 and rows 1 to 58. -/
theorem move_preserves_onGrid (s s' : Snake) (inp : Input) (hne : s.body ≠ [])
    (hg : s.onGrid) (hm : s.move inp = some s') : s'.onGrid := by
  by_cases hb : s._is_boundary_collision = true
  · rw [move_of_boundary s inp hb] at hm
    rw [← Option.some.inj hm]
    exact hg
  · have hb' : s._is_boundary_collision = false := by simpa using hb
    rw [move_of_not_boundary s inp hne hb'] at hm
    have hs' := Option.some.inj hm
    obtain ⟨hsize, hvel, m, n, hx, hy, ⟨hm0, hm1⟩, ⟨hn0, hn1⟩⟩ := hg
    by_cases hdir : (s._set_direction inp).dir = Direction.NO_DIRECTION
    · rw [if_pos hdir, set_direction_eq_self s inp hdir] at hs'
      rw [← hs']
      exact ⟨hsize, hvel, m, n, hx, hy, ⟨hm0, hm1⟩, ⟨hn0, hn1⟩⟩
    · rw [if_neg hdir] at hs'
      obtain ⟨⟨hx2, hx3⟩, ⟨hy2, hy3⟩⟩ := (not_boundary_iff s hsize).mp hb'
      rw [hx] at hx2 hx3
      rw [hy] at hy2 hy3
      have hm2 : (1 : ℤ) ≤ m := by
        by_contra hlt
        have hle : (m : ℚ) ≤ 0 := by exact_mod_cast (by omega : m ≤ 0)
        linarith
      have hm3 : m ≤ 78 := by
        by_contra hlt
        have hle : (79 : ℚ) ≤ (m : ℚ) := by exact_mod_cast (by omega : (79 : ℤ) ≤ m)
        linarith
      have hn2 : (1 : ℤ) ≤ n := by
        by_contra hlt
        have hle : (n : ℚ) ≤ 0 := by exact_mod_cast (by omega : n ≤ 0)
        linarith
      have hn3 : n ≤ 58 := by
        by_contra hlt
        have hle : (59 : ℚ) ≤ (n : ℚ) := by exact_mod_cast (by omega : (59 : ℤ) ≤ n)
        linarith
      rw [← hs']
      refine ⟨hsize, hvel, ?_⟩
      show ∃ a b : ℤ, (stepHead s (s._set_direction inp).dir).x = 20 * (a : ℚ) ∧
        (stepHead s (s._set_direction inp).dir).y = 20 * (b : ℚ) ∧
        (0 ≤ a ∧ a ≤ 79) ∧ (0 ≤ b ∧ b ≤ 59)
      cases hcase : (s._set_direction inp).dir with
      | UP =>
        refine ⟨m, n - 1, hx, ?_, ⟨hm0, hm1⟩, ⟨by omega, by omega⟩⟩
        show s.head.y - s.vel = 20 * ((n - 1 : ℤ) : ℚ)
        rw [hy, hvel]
        push_cast
        ring
      | DOWN =>
        refine ⟨m, n + 1, hx, ?_, ⟨hm0, hm1⟩, ⟨by omega, by omega⟩⟩
        show s.head.y + s.vel = 20 * ((n + 1 : ℤ) : ℚ)
        rw [hy, hvel]
        push_cast
        ring
      | LEFT =>
        refine ⟨m - 1, n, ?_, hy, ⟨by omega, by omega⟩, ⟨hn0, hn1⟩⟩
        show s.head.x - s.vel = 20 * ((m - 1 : ℤ) : ℚ)
        rw [hx, hvel]
        push_cast
        ring
      | RIGHT =>
        refine ⟨m + 1, n, ?_, hy, ⟨by omega, by omega⟩, ⟨hn0, hn1⟩⟩
        show s.head.x + s.vel = 20 * ((m + 1 : ℤ) : ℚ)
        rw [hx, hvel]
        push_cast
        ring
      | NO_DIRECTION => exact absurd hcase hdir

/-- An update tick keeps the snake on the grid of the play field. -/
theorem tick_preserves_onGrid (l l' : RunningLevel) (f : Frame)
    (h : l.snake.body.head? = some l.snake.head) (hg : l.snake.onGrid)
    (ht : l.tick f = some l') : l'.snake.onGrid := by
  obtain ⟨s1, r, hm, h1, he, -, ht'⟩ := tick_steps l f h
  rw [ht'] at ht
  rw [← Option.some.inj ht]
  have hg1 := move_preserves_onGrid l.snake s1 f.inp (ne_nil_of_head_eq_some h) hg hm
  obtain ⟨e1, e2, e3, -⟩ := eat_frame s1 l.food f.wx f.wy r (ne_nil_of_head_eq_some h1) he
  show r.1.onGrid
  unfold Snake.onGrid at hg1 ⊢
  rw [e1, e2, e3]
  exact hg1

/-- Every sequence of ticks keeps the snake on the grid of the play field. -/
theorem ticks_preserve_onGrid (frames : List Frame) :
    ∀ l : RunningLevel, l.snake.body.head? = some l.snake.head → l.snake.onGrid →
      ∃ l', l.ticks frames = some l' ∧ l'.snake.onGrid := by
  induction frames with
  | nil =>
    intro l _ hg
    exact ⟨l, rfl, hg⟩
  | cons f rest ih =>
    intro l h hg
    obtain ⟨l1, ht, h1⟩ := tick_preserves_front l f h
    obtain ⟨l2, hts, hg2⟩ := ih l1 h1 (tick_preserves_onGrid l l1 f h hg ht)
    refine ⟨l2, ?_, hg2⟩
    unfold RunningLevel.ticks
    rw [ht]
    exact hts

/-- C15 (the head stays inside the play field): every sequence of update ticks
from the initial running level returns a level whose head coordinates are
integer multiples of 20 with `0 <= head.x <= 1580 = WINDOW_WIDTH - size` and
`0 <= head.y <= 1180 = WINDOW_HEIGHT - size`. -/
theorem C15_head_stays_in_field (frames : List Frame) :
    ∃ l, RunningLevel.new.ticks frames = some l ∧
      (∃ m n : ℤ, l.snake.head.x = 20 * (m : ℚ) ∧ l.snake.head.y = 20 * (n : ℚ)) ∧
      (0 ≤ l.snake.head.x ∧ l.snake.head.x ≤ 1580) ∧
      (0 ≤ l.snake.head.y ∧ l.snake.head.y ≤ 1180) ∧
      ((WINDOW_WIDTH : ℚ) - (l.snake.size : ℚ) = 1580 ∧
        (WINDOW_HEIGHT : ℚ) - (l.snake.size : ℚ) = 1180) := by
  obtain ⟨l, hts, hsize, -, m, n, hx, hy, ⟨hm0, hm1⟩, ⟨hn0, hn1⟩⟩ :=
    ticks_preserve_onGrid frames RunningLevel.new rfl new_level_onGrid
  have hm0' : (0 : ℚ) ≤ (m : ℚ) := by exact_mod_cast hm0
  have hm1' : (m : ℚ) ≤ 79 := by exact_mod_cast hm1
  have hn0' : (0 : ℚ) ≤ (n : ℚ) := by exact_mod_cast hn0
  have hn1' : (n : ℚ) ≤ 59 := by exact_mod_cast hn1
  refine ⟨l, hts, ⟨m, n, hx, hy⟩, ⟨?_, ?_⟩, ⟨?_, ?_⟩, ?_, ?_⟩
  · rw [hx]; linarith
  · rw [hx]; linarith
  · rw [hy]; linarith
  · rw [hy]; linarith
  · rw [hsize]; norm_num [WINDOW_WIDTH]
  · rw [hsize]; norm_num [WINDOW_HEIGHT]

theorem contiguous_cons_cons (d : ℚ) (a b : Vec2 ℚ) (rest : List (Vec2 ℚ)) :
    contiguous d (a :: b :: rest) ↔ adjacent d a b ∧ contiguous d (b :: rest) := by
  simp only [contiguous]

theorem contiguous_dropLast (d : ℚ) :
    ∀ l : List (Vec2 ℚ), contiguous d l → contiguous d l.dropLast
  | [], _ => trivial
  | [_], _ => trivial
  | [_, _], _ => trivial
  | a :: b :: c :: r, h => by
    rw [contiguous_cons_cons] at h
    show contiguous d (a :: b :: (c :: r).dropLast)
    rw [contiguous_cons_cons]
    exact ⟨h.1, contiguous_dropLast d (b :: c :: r) h.2⟩

theorem contiguous_append_singleton (d : ℚ) (x : Vec2 ℚ) :
    ∀ (l : List (Vec2 ℚ)) (hne : l ≠ []), contiguous d l →
      adjacent d (l.getLast hne) x → contiguous d (l ++ [x])
  | [], hne, _, _ => absurd rfl hne
  | [a], _, _, hadj => by
    show contiguous d [a, x]
    rw [contiguous_cons_cons]
    exact ⟨hadj, trivial⟩
  | a :: b :: r, _, h, hadj => by
    rw [contiguous_cons_cons] at h
    show contiguous d (a :: b :: (r ++ [x]))
    rw [contiguous_cons_cons]
    refine ⟨h.1, contiguous_append_singleton d x (b :: r) (by simp) h.2 ?_⟩
    rw [List.getLast_cons (by simp : b :: r ≠ [])] at hadj
    exact hadj

theorem contiguous_getElem (d : ℚ) :
    ∀ (l : List (Vec2 ℚ)), contiguous d l → ∀ (i : Nat) (a b : Vec2 ℚ),
      l[i]? = some a → l[i + 1]? = some b → adjacent d a b
  | [], _, i, a, b, ha, _ => by simp at ha
  | [_], _, i, a, b, _, hb => by simp at hb
  | x :: y :: r, h, 0, a, b, ha, hb => by
    rw [contiguous_cons_cons] at h
    simp only [List.getElem?_cons_zero, Option.some.injEq] at ha
    simp only [zero_add, List.getElem?_cons_succ, List.getElem?_cons_zero,
      Option.some.injEq] at hb
    rw [← ha, ← hb]
    exact h.1
  | x :: y :: r, h, i + 1, a, b, ha, hb => by
    rw [contiguous_cons_cons] at h
    rw [List.getElem?_cons_succ] at ha hb
    exact contiguous_getElem d (y :: r) h.2 i a b ha hb

/-- The head computed by `Snake::move` is adjacent to the head it left. -/
theorem adjacent_stepHead (s : Snake) (dir : Direction) (hvel : s.vel = 20)
    (hdir : dir ≠ Direction.NO_DIRECTION) : adjacent 20 (stepHead s dir) s.head := by
  unfold adjacent
  cases dir with
  | UP => right; simp [stepHead, hvel]
  | DOWN => right; simp [stepHead, hvel]
  | LEFT => left; simp [stepHead, hvel]
  | RIGHT => left; simp [stepHead, hvel]
  | NO_DIRECTION => exact absurd rfl hdir

/-- The segment computed by `Snake::_add_segment` is adjacent to the tail. -/
theorem adjacent_newSegment (s : Snake) (tail : Vec2 ℚ) (hsize : s.size = 20)
    (hdir : s.dir ≠ Direction.NO_DIRECTION) : adjacent 20 tail (newSegment s tail) := by
  unfold adjacent newSegment
  cases hd : s.dir with
  | UP => right; simp [hsize]
  | DOWN => right; simp [hsize]
  | LEFT => left; simp [hsize]
  | RIGHT => left; simp [hsize]
  | NO_DIRECTION => exact absurd hd hdir

/-- The method `Snake::move` keeps the chain of a snake of velocity 20
contiguous. -/
theorem move_preserves_contiguous (s s' : Snake) (inp : Input)
    (hf : s.body.head? = some s.head) (hvel : s.vel = 20)
    (hc : contiguous 20 s.body) (hm : s.move inp = some s') :
    s'.size = s.size ∧ s'.vel = s.vel ∧ contiguous 20 s'.body := by
  have hne := ne_nil_of_head_eq_some hf
  by_cases hb : s._is_boundary_collision = true
  · rw [move_of_boundary s inp hb] at hm
    rw [← Option.some.inj hm]
    exact ⟨rfl, rfl, hc⟩
  · have hb' : s._is_boundary_collision = false := by simpa using hb
    rw [move_of_not_boundary s inp hne hb'] at hm
    have hs' := Option.some.inj hm
    by_cases hdir : (s._set_direction inp).dir = Direction.NO_DIRECTION
    · rw [if_pos hdir, set_direction_eq_self s inp hdir] at hs'
      rw [← hs']
      exact ⟨rfl, rfl, hc⟩
    · rw [if_neg hdir] at hs'
      rw [← hs']
      refine ⟨rfl, rfl, ?_⟩
      show contiguous 20 (stepHead s (s._set_direction inp).dir :: s.body.dropLast)
      have hadj := adjacent_stepHead s (s._set_direction inp).dir hvel hdir
      have hdrop := contiguous_dropLast 20 s.body hc
      cases hbody : s.body with
      | nil => exact absurd hbody hne
      | cons a rest =>
        rw [hbody] at hf hdrop
        simp only [List.head?_cons, Option.some.injEq] at hf
        cases rest with
        | nil => trivial
        | cons b r =>
          show contiguous 20 (stepHead s (s._set_direction inp).dir :: a :: (b :: r).dropLast)
          rw [contiguous_cons_cons]
          rw [← hf] at hadj
          exact ⟨hadj, hdrop⟩

theorem roundHalfEven_intCast (n : ℤ) : roundHalfEven (n : ℚ) = n := by
  unfold roundHalfEven
  simp

/-- An integer below `2^24` in absolute value is a `float`: rounding keeps it. -/
theorem roundFloat_intCast (n : ℤ) (h : |n| < 2 ^ 24) : roundFloat (n : ℚ) = n := by
  unfold roundFloat
  split_ifs with h0
  · exact h0.symm
  · have hn : n ≠ 0 := by
      intro hz
      apply h0
      rw [hz]
      rfl
    have hpos : (0 : ℚ) < |(n : ℚ)| := abs_pos.mpr h0
    have h1 : (1 : ℚ) ≤ |(n : ℚ)| := by
      have hone : (1 : ℤ) ≤ |n| := Int.one_le_abs hn
      exact_mod_cast hone
    have h2 : |(n : ℚ)| < (2 : ℚ) ^ (24 : ℤ) := by
      have hlt : ((|n| : ℤ) : ℚ) < ((2 ^ 24 : ℤ) : ℚ) := by exact_mod_cast h
      rw [Int.cast_abs] at hlt
      norm_num at hlt ⊢
      exact hlt
    have hlo : (0 : ℤ) ≤ Int.log 2 |(n : ℚ)| := by
      rw [← Int.zpow_le_iff_le_log (by norm_num) hpos]
      simpa using h1
    have hhi : Int.log 2 |(n : ℚ)| < 24 := by
      rw [← Int.lt_zpow_iff_log_lt (by norm_num) hpos]
      exact_mod_cast h2
    generalize Int.log 2 |(n : ℚ)| = e at hlo hhi
    rw [max_eq_left (by omega)]
    obtain ⟨k, hk⟩ : ∃ k : ℕ, e - 23 = -(k : ℤ) := ⟨(23 - e).toNat, by omega⟩
    rw [hk, zpow_neg, zpow_natCast, div_inv_eq_mul]
    have hcast : (n : ℚ) * (2 : ℚ) ^ k = ((n * 2 ^ k : ℤ) : ℚ) := by push_cast; ring
    rw [hcast, roundHalfEven_intCast]
    push_cast
    field_simp

/-- Adding or subtracting 20 on an integer coordinate of absolute value at
most `B`, with `B + 20 < 2^24`, is exact in binary32 and stays within
`B + 20`. -/
theorem roundFloat_step (B m : ℤ) (q : ℚ) (hq : q = (m : ℚ)) (hm : |m| ≤ B)
    (hB : B + 20 < 2 ^ 24) :
    (roundFloat (q + 20) = ((m + 20 : ℤ) : ℚ) ∧ |m + 20| ≤ B + 20) ∧
    (roundFloat (q - 20) = ((m - 20 : ℤ) : ℚ) ∧ |m - 20| ≤ B + 20) := by
  have habs := abs_le.mp hm
  have hp : |m + 20| ≤ B + 20 := abs_le.mpr ⟨by omega, by omega⟩
  have hn : |m - 20| ≤ B + 20 := abs_le.mpr ⟨by omega, by omega⟩
  refine ⟨⟨?_, hp⟩, ⟨?_, hn⟩⟩
  · have e : q + 20 = ((m + 20 : ℤ) : ℚ) := by rw [hq]; push_cast; ring
    rw [e]
    exact roundFloat_intCast _ (by omega)
  · have e : q - 20 = ((m - 20 : ℤ) : ℚ) := by rw [hq]; push_cast; ring
    rw [e]
    exact roundFloat_intCast _ (by omega)

theorem onIntegers_mono (B C : ℤ) (p : Vec2 ℚ) (hBC : B ≤ C) (h : onIntegers B p) :
    onIntegers C p := by
  obtain ⟨m, n, hx, hy, hm, hn⟩ := h
  exact ⟨m, n, hx, hy, le_trans hm hBC, le_trans hn hBC⟩

/-- On integer coordinates within `B`, the step of `Snake::move` is the same
in binary32 as in exact arithmetic, and lands within `B + 20`. -/
theorem stepHead_exact (B : ℤ) (s : Snake) (d : Direction) (hvel : s.vel = 20)
    (hh : onIntegers B s.head) (hB : B + 20 < 2 ^ 24) :
    (roundFloat (s.head.y - s.vel) = s.head.y - s.vel ∧
     roundFloat (s.head.y + s.vel) = s.head.y + s.vel ∧
     roundFloat (s.head.x - s.vel) = s.head.x - s.vel ∧
     roundFloat (s.head.x + s.vel) = s.head.x + s.vel) ∧
    onIntegers (B + 20) (stepHead s d) := by
  obtain ⟨m, n, hx, hy, hm, hn⟩ := hh
  obtain ⟨⟨xp, xpb⟩, ⟨xm, xmb⟩⟩ := roundFloat_step B m s.head.x hx hm hB
  obtain ⟨⟨yp, ypb⟩, ⟨ym, ymb⟩⟩ := roundFloat_step B n s.head.y hy hn hB
  have hm' : |m| ≤ B + 20 := by omega
  have hn' : |n| ≤ B + 20 := by omega
  rw [hvel]
  refine ⟨⟨?_, ?_, ?_, ?_⟩, ?_⟩
  · rw [ym, hy]; push_cast; ring
  · rw [yp, hy]; push_cast; ring
  · rw [xm, hx]; push_cast; ring
  · rw [xp, hx]; push_cast; ring
  · cases d with
    | UP => exact ⟨m, n - 20, hx, by simp [stepHead, hvel, hy], hm', ymb⟩
    | DOWN => exact ⟨m, n + 20, hx, by simp [stepHead, hvel, hy], hm', ypb⟩
    | LEFT => exact ⟨m - 20, n, by simp [stepHead, hvel, hx], hy, xmb, hn'⟩
    | RIGHT => exact ⟨m + 20, n, by simp [stepHead, hvel, hx], hy, xpb, hn'⟩
    | NO_DIRECTION => exact ⟨m, n, hx, hy, hm', hn'⟩

theorem boundary_float_eq (s : Snake) (hsize : s.size = 20) :
    s._is_boundary_collision_float = s._is_boundary_collision := by
  have ew : ((subU32 (subU32 WINDOW_WIDTH 20) 2 : Nat) : ℚ) = ((1578 : ℤ) : ℚ) := by
    norm_num [subU32, WINDOW_WIDTH]
  have eh : ((subU32 (subU32 WINDOW_HEIGHT 20) 2 : Nat) : ℚ) = ((1178 : ℤ) : ℚ) := by
    norm_num [subU32, WINDOW_HEIGHT]
  unfold Snake._is_boundary_collision_float Snake._is_boundary_collision
  rw [hsize, ew, eh, roundFloat_intCast 1578 (by norm_num),
    roundFloat_intCast 1178 (by norm_num)]

/-- On integer coordinates within `B`, `Snake::move` in binary32 returns what
it returns in exact arithmetic. -/
theorem move_float_eq_move (B : ℤ) (s : Snake) (inp : Input) (hsize : s.size = 20)
    (hvel : s.vel = 20) (hh : onIntegers B s.head) (hB : B + 20 < 2 ^ 24) :
    s.move_float inp = s.move inp := by
  obtain ⟨⟨e1, e2, e3, e4⟩, -⟩ := stepHead_exact B s Direction.UP hvel hh hB
  have hhd := set_direction_head s inp
  have hv := set_direction_vel s inp
  unfold Snake.move_float Snake.move
  rw [boundary_float_eq s hsize]
  split_ifs
  · rfl
  · simp only [hhd, hv, e1, e2, e3, e4]

/-- What `Snake::_add_segment` returns in binary32 on a non-empty body whose
last element lies on integer coordinates within `B`: the same as in exact
arithmetic. -/
theorem add_segment_float_eq (B : ℤ) (s : Snake) (hne : s.body ≠ []) (hsize : s.size = 20)
    (hl : onIntegers B (s.body.getLast hne)) (hB : B + 20 < 2 ^ 24) :
    s._add_segment_float = s._add_segment ∧
      onIntegers (B + 20) (newSegment s (s.body.getLast hne)) := by
  obtain ⟨m, n, hx, hy, hm, hn⟩ := hl
  obtain ⟨⟨xp, xpb⟩, ⟨xm, xmb⟩⟩ := roundFloat_step B m _ hx hm hB
  obtain ⟨⟨yp, ypb⟩, ⟨ym, ymb⟩⟩ := roundFloat_step B n _ hy hn hB
  have hm' : |m| ≤ B + 20 := by omega
  have hn' : |n| ≤ B + 20 := by omega
  have hs : (s.size : ℚ) = 20 := by rw [hsize]; norm_num
  constructor
  · unfold Snake._add_segment_float Snake._add_segment
    rw [List.getLast?_eq_getLast s.body hne]
    simp only [hs]
    rw [xp, xm, yp, ym, hx, hy]
    push_cast
    rfl
  · unfold newSegment
    rw [hs]
    cases s.dir with
    | UP => exact ⟨m, n + 20, hx, by simp [hy], hm', ypb⟩
    | DOWN => exact ⟨m, n - 20, hx, by simp [hy], hm', ymb⟩
    | LEFT => exact ⟨m - 20, n, by simp [hx], hy, xmb, hn'⟩
    | RIGHT => exact ⟨m + 20, n, by simp [hx], hy, xpb, hn'⟩
    | NO_DIRECTION => exact ⟨m, n, hx, hy, hm', hn'⟩

/-- Where the body elements of the snake returned by `Snake::move` come from:
the old body, or the stepped head. -/
theorem move_body_mem (s s' : Snake) (inp : Input) (hne : s.body ≠ [])
    (hm : s.move inp = some s') (p : Vec2 ℚ) (hp : p ∈ s'.body) :
    p ∈ s.body ∨ p = stepHead s (s._set_direction inp).dir := by
  by_cases hb : s._is_boundary_collision = true
  · rw [move_of_boundary s inp hb] at hm
    rw [← Option.some.inj hm] at hp
    exact Or.inl hp
  · have hb' : s._is_boundary_collision = false := by simpa using hb
    rw [move_of_not_boundary s inp hne hb'] at hm
    rw [← Option.some.inj hm] at hp
    by_cases hdir : (s._set_direction inp).dir = Direction.NO_DIRECTION
    · rw [if_pos hdir, set_direction_body] at hp
      exact Or.inl hp
    · rw [if_neg hdir] at hp
      rcases List.mem_cons.mp hp with h | h
      · exact Or.inr h
      · exact Or.inl (List.mem_of_mem_dropLast h)

theorem head_mem_of_front (s : Snake) (hf : s.body.head? = some s.head) :
    s.head ∈ s.body := by
  cases hbody : s.body with
  | nil => rw [hbody] at hf; cases hf
  | cons a rest =>
    rw [hbody] at hf
    simp only [List.head?_cons, Option.some.injEq] at hf
    rw [hf]
    exact List.mem_cons_self _ _

/-- The method `Snake::move` in binary32 returns, and keeps a snake on integer
coordinates exact, within a bound 20 larger. -/
theorem move_float_preserves_exact (B : ℤ) (s : Snake) (inp : Input)
    (hinv : s.exactWithin B) (hB : B + 20 < 2 ^ 24) :
    ∃ s', s.move_float inp = some s' ∧ s'.exactWithin (B + 20) := by
  obtain ⟨hf, hsize, hvel, hc, hall⟩ := hinv
  have hne := ne_nil_of_head_eq_some hf
  have hh : onIntegers B s.head := hall s.head (head_mem_of_front s hf)
  obtain ⟨s', hm, hf'⟩ := move_preserves_front s inp hf
  refine ⟨s', (move_float_eq_move B s inp hsize hvel hh hB).trans hm, hf', ?_⟩
  obtain ⟨e1, e2, hc'⟩ := move_preserves_contiguous s s' inp hf hvel hc hm
  refine ⟨e1.trans hsize, e2.trans hvel, hc', ?_⟩
  intro p hp
  rcases move_body_mem s s' inp hne hm p hp with h | h
  · exact onIntegers_mono B (B + 20) p (by omega) (hall p h)
  · rw [h]
    exact (stepHead_exact B s _ hvel hh hB).2

/-- What `Snake::eat` returns in binary32 on a non-empty body, once
`_add_segment` is known to be exact there. -/
theorem eat_float_of_ne_nil (s : Snake) (food : Food) (wx wy : ℚ) (hne : s.body ≠ [])
    (hadd : s._add_segment_float = s._add_segment) :
    s.eat_float food wx wy = some
      (if s._is_food_collision_float food = true ∧ s.dir ≠ Direction.NO_DIRECTION then
         { s with body := s.body ++ [newSegment s (s.body.getLast hne)] }
       else s,
       if s._is_food_collision_float food = true then food.reset wx wy else food) := by
  unfold Snake.eat_float
  rw [hadd, add_segment_of_ne_nil s hne]
  by_cases hc : s._is_food_collision_float food = true
  · by_cases hd : s.dir = Direction.NO_DIRECTION <;> simp [hc, hd]
  · simp [hc]

/-- The method `Snake::eat` in binary32 returns, and keeps a snake on integer
coordinates exact, within a bound 20 larger. -/
theorem eat_float_preserves_exact (B : ℤ) (s : Snake) (food : Food) (wx wy : ℚ)
    (hinv : s.exactWithin B) (hB : B + 20 < 2 ^ 24) :
    ∃ r, s.eat_float food wx wy = some r ∧ r.1.exactWithin (B + 20) := by
  obtain ⟨hf, hsize, hvel, hc, hall⟩ := hinv
  have hne := ne_nil_of_head_eq_some hf
  have hl : onIntegers B (s.body.getLast hne) := hall _ (List.getLast_mem hne)
  obtain ⟨hadd, hseg⟩ := add_segment_float_eq B s hne hsize hl hB
  have hkeep : s.exactWithin (B + 20) :=
    ⟨hf, hsize, hvel, hc, fun p hp => onIntegers_mono B (B + 20) p (by omega) (hall p hp)⟩
  refine ⟨_, eat_float_of_ne_nil s food wx wy hne hadd, ?_⟩
  show (if _ then _ else s).exactWithin (B + 20)
  split_ifs with hgrow
  · refine ⟨?_, hsize, hvel, ?_, ?_⟩
    · show (s.body ++ _).head? = some s.head
      rw [List.head?_append_of_ne_nil _ hne]
      exact hf
    · exact contiguous_append_singleton 20 _ s.body hne hc
        (adjacent_newSegment s _ hsize hgrow.2)
    · intro p hp
      rcases List.mem_append.mp hp with h | h
      · exact onIntegers_mono B (B + 20) p (by omega) (hall p h)
      · rw [List.mem_singleton.mp h]
        exact hseg
  · exact hkeep

/-- Every call in binary32 returns, and keeps a snake on integer coordinates
exact, within a bound 20 larger. -/
theorem call_float_preserves_exact (B : ℤ) (s : Snake) (c : Call)
    (hinv : s.exactWithin B) (hB : B + 20 < 2 ^ 24) :
    ∃ s', s.call_float c = some s' ∧ s'.exactWithin (B + 20) := by
  cases c with
  | move inp => exact move_float_preserves_exact B s inp hinv hB
  | eat food wx wy =>
    obtain ⟨r, hr, hinv'⟩ := eat_float_preserves_exact B s food wx wy hinv hB
    refine ⟨r.1, ?_, hinv'⟩
    show (s.eat_float food wx wy).map Prod.fst = some r.1
    rw [hr]
    rfl

/-- Every sequence of `n` calls in binary32 returns, and keeps a snake on
integer coordinates exact, within a bound `20 n` larger. -/
theorem calls_float_preserve_exact (cs : List Call) :
    ∀ (B : ℤ) (s : Snake), s.exactWithin B → B + 20 * (cs.length : ℤ) < 2 ^ 24 →
      ∃ s', s.calls_float cs = some s' ∧ s'.exactWithin (B + 20 * (cs.length : ℤ)) := by
  induction cs with
  | nil =>
    intro B s hinv _
    refine ⟨s, rfl, ?_⟩
    simpa using hinv
  | cons c rest ih =>
    intro B s hinv hB
    have hlen : ((c :: rest).length : ℤ) = (rest.length : ℤ) + 1 := by
      rw [List.length_cons]
      push_cast
      rfl
    rw [hlen] at hB ⊢
    have hpos : (0 : ℤ) ≤ (rest.length : ℤ) := Int.natCast_nonneg _
    obtain ⟨s1, hcall, hinv1⟩ := call_float_preserves_exact B s c hinv (by omega)
    obtain ⟨s2, hcalls, hinv2⟩ := ih (B + 20) s1 hinv1 (by omega)
    refine ⟨s2, ?_, ?_⟩
    · unfold Snake.calls_float
      rw [hcall]
      exact hcalls
    · have e : B + 20 * ((rest.length : ℤ) + 1) = B + 20 + 20 * (rest.length : ℤ) := by ring
      rw [e]
      exact hinv2

/-- A move followed by an eat, in binary32, from the results of the two
methods. -/
theorem calls_float_move_eat (s s1 : Snake) (r : Snake × Food) (inp : Input) (food : Food)
    (wx wy : ℚ) (h1 : s.move_float inp = some s1) (h2 : s1.eat_float food wx wy = some r) :
    s.calls_float [Call.move inp, Call.eat food wx wy] = some r.1 := by
  have c1 : s.call_float (Call.move inp) = some s1 := h1
  have c2 : s1.call_float (Call.eat food wx wy) = some r.1 := by
    show (s1.eat_float food wx wy).map Prod.fst = some r.1
    rw [h2]
    rfl
  unfold Snake.calls_float
  rw [c1]
  show s1.calls_float [Call.eat food wx wy] = some r.1
  unfold Snake.calls_float
  rw [c2]
  rfl

theorem offGrid_move_float :
    (Snake.new headOffGrid 20).move_float (heldKeys [KeyboardKey.KEY_D])
      = some snakeOffGridMoved := by
  have hb : (Snake.new headOffGrid 20)._is_boundary_collision_float = false := by
    rw [boundary_float_eq _ rfl]
    decide!
  have hset : (Snake.new headOffGrid 20)._set_direction (heldKeys [KeyboardKey.KEY_D])
      = { head := headOffGrid, body := [headOffGrid], size := 20, vel := 20,
          dir := Direction.RIGHT } := by decide!
  have r1 : roundFloat (headOffGrid.x + 20) = 15741747 / 131072 := by decide!
  unfold Snake.move_float
  rw [hb, hset]
  simp only [Bool.false_eq_true, if_false, r1]
  decide!

theorem offGrid_eat_float :
    snakeOffGridMoved.eat_float food120 320 300
      = some (snakeOffGridFed, food120.reset 320 300) := by
  have r2 : roundFloat (15741747 / 131072 + ((20 : ℕ) : ℚ)) = 4590797 / 32768 := by decide!
  have r3 : roundFloat ((120 : ℚ) + ((20 : ℕ) : ℚ)) = 140 := by decide!
  have r4 : roundFloat ((100 : ℚ) + ((20 : ℕ) : ℚ)) = 120 := by decide!
  have hc : snakeOffGridMoved._is_food_collision_float food120 = true := by
    simp only [Snake._is_food_collision_float, snakeOffGridMoved, food120, r2, r3, r4]
    decide!
  have ha : snakeOffGridMoved._add_segment_float = some snakeOffGridFed := by
    simp only [Snake._add_segment_float, snakeOffGridMoved, List.getLast?_singleton, r2]
    rfl
  unfold Snake.eat_float
  rw [hc, ha]
  rfl

theorem onGrid_move_float :
    (Snake.new { x := ((100 : ℤ) : ℚ), y := ((100 : ℤ) : ℚ) } 20).move_float
        (heldKeys [KeyboardKey.KEY_D]) = some snakeRight120 := by
  have hvel : (Snake.new { x := ((100 : ℤ) : ℚ), y := ((100 : ℤ) : ℚ) } 20).vel = 20 := by
    show SNAKE_VELOCITY = 20
    norm_num [SNAKE_VELOCITY, SNAKE_SIZE]
  rw [move_float_eq_move 100 _ _ rfl hvel ⟨100, 100, rfl, rfl, by decide, by decide⟩
    (by decide)]
  decide!

theorem onGrid_eat_float :
    snakeRight120.eat_float food120 320 300
      = some ({ snakeRight120 with
                body := [{ x := 120, y := 100 }, { x := 140, y := 100 }] },
              food120.reset 320 300) := by
  have r2 : roundFloat ((120 : ℚ) + ((20 : ℕ) : ℚ)) = 140 := by decide!
  have r4 : roundFloat ((100 : ℚ) + ((20 : ℕ) : ℚ)) = 120 := by decide!
  have hc : snakeRight120._is_food_collision_float food120 = true := by
    simp only [Snake._is_food_collision_float, snakeRight120, food120, r2, r4]
    decide!
  have ha : snakeRight120._add_segment_float
      = some { snakeRight120 with
               body := [{ x := 120, y := 100 }, { x := 140, y := 100 }] } := by
    simp only [Snake._add_segment_float, snakeRight120, List.getLast?_singleton, r2]
    rfl
  unfold Snake.eat_float
  rw [hc, ha]
  rfl

/-- C14 as stated fails in the arithmetic of the program: from
`Snake((100.1f, 100), 20)`, a `move()` with D held and an `eat()` on a food at
`(120,100)` give the body `[(15741747/2^17, 100), (4590797/2^15, 100)]`, whose
two elements are `20 + 2^-17` apart because `new_segment.x += size` rounds. -/
theorem C14_rounding_breaks_contiguity :
    roundFloat (1001 / 10) = headOffGrid.x ∧
    (Snake.new headOffGrid 20).calls_float
        [Call.move (heldKeys [KeyboardKey.KEY_D]), Call.eat food120 320 300]
      = some snakeOffGridFed ∧
    snakeOffGridFed.body
      = [{ x := 15741747 / 131072, y := 100 }, { x := 4590797 / 32768, y := 100 }] ∧
    ¬ adjacent 20 ({ x := 15741747 / 131072, y := 100 } : Vec2 ℚ)
        { x := 4590797 / 32768, y := 100 } ∧
    (4590797 / 32768 - 15741747 / 131072 : ℚ) = 20 + 1 / 131072 := by
  exact ⟨by decide!,
    calls_float_move_eat _ _ _ _ _ _ _ offGrid_move_float offGrid_eat_float,
    rfl, by decide!, by norm_num⟩

/-- C14 amended (chain contiguity on integer coordinates): for `Snake(head, 20)`
with integer head coordinates and a sequence of `n` `move()` and `eat()` calls
such that `|head.x| + 20 (n + 1)` and `|head.y| + 20 (n + 1)` stay below
`2^24`, the calls, computed in binary32, return a snake in which any two
consecutive body elements differ by exactly 20 along one axis and by 0 along
the other; and a further `eat()` that grows the body appends a segment
adjacent in this sense to the previous tail. -/
theorem C14_chain_contiguity_on_integers (hx hy : ℤ) (cs : List Call)
    (hbx : |hx| + 20 * ((cs.length : ℤ) + 1) < 2 ^ 24)
    (hby : |hy| + 20 * ((cs.length : ℤ) + 1) < 2 ^ 24) :
    ∃ s, (Snake.new { x := (hx : ℚ), y := (hy : ℚ) } 20).calls_float cs = some s ∧
      (∀ (i : Nat) (a b : Vec2 ℚ), s.body[i]? = some a → s.body[i + 1]? = some b →
        adjacent 20 a b) ∧
      (∀ (food : Food) (wx wy : ℚ), ∃ r, s.eat_float food wx wy = some r ∧
        (r.1.body.length = s.body.length + 1 →
          ∃ tail seg, s.body.getLast? = some tail ∧ r.1.body = s.body ++ [seg] ∧
            adjacent 20 tail seg)) := by
  have hvel : (Snake.new { x := (hx : ℚ), y := (hy : ℚ) } 20).vel = 20 := by
    show SNAKE_VELOCITY = 20
    norm_num [SNAKE_VELOCITY, SNAKE_SIZE]
  have hinit : (Snake.new { x := (hx : ℚ), y := (hy : ℚ) } 20).exactWithin
      (max |hx| |hy|) := by
    refine ⟨rfl, rfl, hvel, trivial, ?_⟩
    intro p hp
    rw [List.mem_singleton.mp hp]
    exact ⟨hx, hy, rfl, rfl, le_max_left _ _, le_max_right _ _⟩
  have hpos : (0 : ℤ) ≤ (cs.length : ℤ) := Int.natCast_nonneg _
  have hmax : max |hx| |hy| + 20 * ((cs.length : ℤ) + 1) < 2 ^ 24 := by
    rcases max_choice |hx| |hy| with h | h <;> rw [h] <;> assumption
  obtain ⟨s, hcalls, hf, hsize, -, hc, hall⟩ :=
    calls_float_preserve_exact cs (max |hx| |hy|) _ hinit (by omega)
  have hne := ne_nil_of_head_eq_some hf
  refine ⟨s, hcalls, contiguous_getElem 20 s.body hc, ?_⟩
  intro food wx wy
  have hl := hall _ (List.getLast_mem hne)
  obtain ⟨hadd, -⟩ := add_segment_float_eq _ s hne hsize hl (by omega)
  refine ⟨_, eat_float_of_ne_nil s food wx wy hne hadd, ?_⟩
  intro hlen
  by_cases hgrow : s._is_food_collision_float food = true ∧ s.dir ≠ Direction.NO_DIRECTION
  · refine ⟨s.body.getLast hne, newSegment s (s.body.getLast hne),
      List.getLast?_eq_getLast s.body hne, ?_, adjacent_newSegment s _ hsize hgrow.2⟩
    show (if _ then _ else s).body = _
    rw [if_pos hgrow]
  · exfalso
    have hlen' : (if s._is_food_collision_float food = true ∧
        s.dir ≠ Direction.NO_DIRECTION
        then { s with body := s.body ++ [newSegment s (s.body.getLast hne)] }
        else s).body.length = s.body.length + 1 := hlen
    rw [if_neg hgrow] at hlen'
    omega

/-- C14 amended, on the grid: from `Snake((100,100), 20)`, a `move()` with D
held and an `eat()` on a food at `(120,100)` give, in binary32, the body
`[(120,100), (140,100)]`, whose two elements are exactly 20 apart. -/
theorem C14_chain_contiguity_on_integers_witness :
    (Snake.new { x := ((100 : ℤ) : ℚ), y := ((100 : ℤ) : ℚ) } 20).calls_float
        [Call.move (heldKeys [KeyboardKey.KEY_D]), Call.eat food120 320 300]
      = some { snakeRight120 with
               body := [{ x := 120, y := 100 }, { x := 140, y := 100 }] } ∧
    adjacent 20 ({ x := 120, y := 100 } : Vec2 ℚ) { x := 140, y := 100 } ∧
    ∃ s, (Snake.new { x := ((100 : ℤ) : ℚ), y := ((100 : ℤ) : ℚ) } 20).calls_float
        [Call.move (heldKeys [KeyboardKey.KEY_D]), Call.eat food120 320 300] = some s ∧
      (∀ (i : Nat) (a b : Vec2 ℚ), s.body[i]? = some a → s.body[i + 1]? = some b →
        adjacent 20 a b) := by
  obtain ⟨s, hs, hadj, -⟩ := C14_chain_contiguity_on_integers 100 100
    [Call.move (heldKeys [KeyboardKey.KEY_D]), Call.eat food120 320 300]
    (by decide) (by decide)
  exact ⟨calls_float_move_eat _ _ _ _ _ _ _ onGrid_move_float onGrid_eat_float,
    by decide!, s, hs, hadj⟩

/-- C16 (segments are not guaranteed distinct): frames whose draws lie in the
ranges of `WIDTH_DIS` and `HEIGHT_DIS` lead from the initial running level to a
snake with body `[(320,300), (300,300), (320,300)]`, whose elements 0 and 2
coincide: ten ticks down, ten ticks right to eat at `(300,300)`, and one more
tick right to eat again at `(320,300)`. -/
theorem C16_segments_can_coincide :
    ∃ frames : List Frame,
      (∀ f ∈ frames, (WIDTH_DIS f.wx ∧ HEIGHT_DIS f.wy) ∧
        ((20 : ℚ) ≤ f.wx ∧ f.wx ≤ 1580) ∧ ((20 : ℚ) ≤ f.wy ∧ f.wy ≤ 1180)) ∧
      ∃ l, RunningLevel.new.ticks frames = some l ∧
        l.snake.body = [{ x := 320, y := 300 }, { x := 300, y := 300 }, { x := 320, y := 300 }] ∧
        ∃ i j : Nat, i ≠ j ∧ i < l.snake.body.length ∧ j < l.snake.body.length ∧
          l.snake.body[i]? = l.snake.body[j]? := by
  refine ⟨eatTwiceFrames, by decide!,
    { snake := { head := { x := 320, y := 300 },
                 body := [{ x := 320, y := 300 }, { x := 300, y := 300 },
                          { x := 320, y := 300 }],
                 size := 20, vel := 20, dir := Direction.RIGHT },
      food := { pos := { x := 320, y := 300 }, size := 20 } },
    by decide!, rfl, 0, 2, by decide, by decide, by decide, rfl⟩

end SnakeAI
